import Mathlib

/-!
Verification of the NEXUS RFID reader core against its natural-language
specification.  Each section shallowly embeds one part of the Python source
(`src/utils/common.py`, `src/utils/data_storage.py`, `src/utils/api_client.py`,
`src/utils/gps.py`, `src/utils/rfid.py`, `src/screens/overview.py`,
`src/utils_Test/encryption.py`) as executable Lean definitions and proves or
refutes the spec's claims about it.

Conventions used throughout:
* Python machine integers are `Nat`/`Int` with explicit `% 2 ^ w` where the
  source masks;
* Python floats that only flow through arithmetic formulas are modelled as
  `Rat` (exact arithmetic; the claims under test are about the formulas, not
  about rounding of IEEE floats);
* Python strings are modelled as lists of Unicode code points (`List Nat`);
* fallible operations return `Option`.
-/

namespace Common

/-- Embeds `find_smallest_available_id` from `src/utils/common.py` (lines
283-291).  The Python source iterates over `used_ids` (a list of one-column
rows, each row's first component being the id), keeps a counter starting at 1,
increments it while the current row's id equals the counter, and `break`s at
the first mismatch.  Here `used_ids` is the list of the rows' id components. -/
def find_smallest_available_id (used_ids : List Nat) : Nat :=
  go 1 used_ids
where
  /-- The loop of `find_smallest_available_id`: `acc` is
  `smallest_available_id`. -/
  go (acc : Nat) : List Nat → Nat
    | [] => acc
    | current_id :: rest => if current_id = acc then go (acc + 1) rest else acc

/-- Embeds `calculate_next_id` from `src/screens/overview.py` (lines 796-804);
the source is a verbatim duplicate of `find_smallest_available_id`. -/
def calculate_next_id (used_ids : List Nat) : Nat :=
  go 1 used_ids
where
  /-- The loop of `calculate_next_id`. -/
  go (acc : Nat) : List Nat → Nat
    | [] => acc
    | current_id :: rest => if current_id = acc then go (acc + 1) rest else acc

/-- Characterization of the loop: on a strictly ascending list whose entries
are all `≥ acc`, it returns the least value `≥ acc` missing from the list. -/
theorem find_smallest_go_spec (l : List Nat) (acc : Nat)
    (hsort : l.Pairwise (· < ·)) (hge : ∀ x ∈ l, acc ≤ x) :
    acc ≤ find_smallest_available_id.go acc l ∧
      find_smallest_available_id.go acc l ∉ l ∧
      ∀ m, acc ≤ m → m ∉ l → find_smallest_available_id.go acc l ≤ m := by
  induction l generalizing acc with
  | nil =>
    refine ⟨le_refl _, List.not_mem_nil _, fun m hm _ => hm⟩
  | cons x rest ih =>
    rcases List.pairwise_cons.mp hsort with ⟨hx_lt, hrest⟩
    by_cases hx : x = acc
    · subst hx
      have hge' : ∀ y ∈ rest, x + 1 ≤ y := fun y hy => hx_lt y hy
      have := ih (x + 1) hrest hge'
      rcases this with ⟨h1, h2, h3⟩
      have hgo : find_smallest_available_id.go x (x :: rest)
          = find_smallest_available_id.go (x + 1) rest := by
        simp [find_smallest_available_id.go]
      refine ⟨?_, ?_, ?_⟩
      · rw [hgo]; omega
      · rw [hgo]
        intro hmem
        rcases List.mem_cons.mp hmem with h | h
        · omega
        · exact h2 h
      · intro m hm hnot
        rw [hgo]
        have hm' : m ≠ x := fun h => hnot (h ▸ List.mem_cons_self x rest)
        exact h3 m (by omega) (fun h => hnot (List.mem_cons_of_mem x h))
    · have hgo : find_smallest_available_id.go acc (x :: rest) = acc := by
        simp [find_smallest_available_id.go, hx]
      have hx_ge : acc ≤ x := hge x (List.mem_cons_self x rest)
      have hx_gt : acc < x := lt_of_le_of_ne hx_ge (fun h => hx h.symm)
      refine ⟨?_, ?_, ?_⟩
      · rw [hgo]
      · rw [hgo]
        intro hmem
        rcases List.mem_cons.mp hmem with h | h
        · omega
        · have := hge x (List.mem_cons_self x rest)
          have hlt := hx_lt _ h
          omega
      · intro m hm _
        rw [hgo]; exact hm

/-- The two duplicated functions agree. -/
theorem calculate_next_id_eq (l : List Nat) :
    calculate_next_id l = find_smallest_available_id l := by
  suffices h : ∀ acc, calculate_next_id.go acc l = find_smallest_available_id.go acc l by
    simpa [calculate_next_id, find_smallest_available_id] using h 1
  induction l with
  | nil => intro acc; rfl
  | cons x rest ih =>
    intro acc
    simp [calculate_next_id.go, find_smallest_available_id.go, ih]

/-- C9: on a strictly-ascending list of positive ids,
`find_smallest_available_id` (and its duplicate `calculate_next_id`) returns
the smallest positive integer not present in the list; in particular it
returns 3 on `[1,2,4,5]`, 5 on `[1,2,3,4]` and 1 on `[]`. -/
theorem c9_find_smallest_available_id (l : List Nat)
    (hsort : l.Pairwise (· < ·)) (hpos : ∀ x ∈ l, 1 ≤ x) :
    (1 ≤ find_smallest_available_id l ∧
      find_smallest_available_id l ∉ l ∧
      ∀ m, 1 ≤ m → m ∉ l → find_smallest_available_id l ≤ m) ∧
    calculate_next_id l = find_smallest_available_id l := by
  refine ⟨find_smallest_go_spec l 1 hsort hpos, calculate_next_id_eq l⟩

/-- Witness for C9 at the concrete inputs named by the spec. -/
theorem c9_find_smallest_available_id_witness :
    find_smallest_available_id [1, 2, 4, 5] = 3 ∧
      find_smallest_available_id [1, 2, 3, 4] = 5 ∧
      find_smallest_available_id [] = 1 ∧
      (3 ∉ [1, 2, 4, 5] ∧ calculate_next_id [1, 2, 4, 5] = find_smallest_available_id [1, 2, 4, 5]) := by
  refine ⟨by decide, by decide, by decide, ?_, ?_⟩
  · exact (c9_find_smallest_available_id [1, 2, 4, 5] (by decide) (by decide)).1.2.1
  · exact (c9_find_smallest_available_id [1, 2, 4, 5] (by decide) (by decide)).2

end Common

namespace ApiClient

/-- The mutable token state of `ApiClient` (`src/utils/api_client.py`):
`self.token` (initially `None`) and `self.token_expires_at` (a Unix time in
seconds, initially `0`).  Times are modelled as `Int` seconds. -/
structure TokenState where
  token : Option (List Nat)
  token_expires_at : Int
  deriving Repr, DecidableEq

/-- The JSON body of an OAuth response as probed by `refresh_token`:
the optional `access_token` field (a string, modelled as code points) and the
optional `expires_in` field (seconds). -/
structure OauthBody where
  access_token : Option (List Nat)
  expires_in : Option Int
  deriving Repr, DecidableEq

/-- Outcome of the `http.post(...)` call inside `refresh_token`
(`src/utils/api_client.py` lines 108-123).  `error` covers every path that
raises and lands in the `except` clause: network exceptions, timeouts,
`raise_for_status` on a 4xx/5xx status, and a malformed JSON body.
`ok status body` is a response whose status did not trip `raise_for_status`
and whose body parsed as JSON. -/
inductive HttpOutcome where
  | error : HttpOutcome
  | ok (status : Nat) (body : OauthBody) : HttpOutcome
  deriving Repr, DecidableEq

/-- Embeds `refresh_token` (`src/utils/api_client.py` lines 94-124) as a state
transformer: given the current token state, the current time `now`
(`time.time()`), and the HTTP outcome, it returns the new state and the
boolean result.  On status 200 with an `access_token` field it caches the
token and sets `token_expires_at = now + expires_in - 60` with `expires_in`
defaulting to 3600; every other path returns `False` with the state
untouched. -/
def refresh_token (st : TokenState) (now : Int) (r : HttpOutcome) :
    TokenState × Bool :=
  match r with
  | .error => (st, false)
  | .ok status body =>
    if status = 200 then
      match body.access_token with
      | some t =>
        ({ token := some t,
           token_expires_at := now + body.expires_in.getD 3600 - 60 }, true)
      | none => (st, false)
    else (st, false)

/-- C3: `refresh_token` returns `true` exactly when the POST yields HTTP 200
with an `access_token` field; in that case it caches the token and sets the
expiry to `now + expires_in - 60` (with `expires_in` defaulting to 3600); on
every other outcome it returns `false` and leaves the state unchanged. -/
theorem c3_refresh_token (st : TokenState) (now : Int) (r : HttpOutcome) :
    ((refresh_token st now r).2 = true ↔
      ∃ body t, r = .ok 200 body ∧ body.access_token = some t) ∧
    (∀ body t, r = .ok 200 body → body.access_token = some t →
      refresh_token st now r =
        ({ token := some t,
           token_expires_at := now + body.expires_in.getD 3600 - 60 }, true)) ∧
    ((refresh_token st now r).2 = false → refresh_token st now r = (st, false)) := by
  refine ⟨?_, ?_, ?_⟩
  · constructor
    · intro h
      match r with
      | .error => simp [refresh_token] at h
      | .ok status body =>
        by_cases hs : status = 200
        · subst hs
          match hb : body.access_token with
          | some t => exact ⟨body, t, rfl, hb⟩
          | none => simp [refresh_token, hb] at h
        · simp [refresh_token, hs] at h
    · rintro ⟨body, t, rfl, hb⟩
      simp [refresh_token, hb]
  · rintro body t rfl hb
    simp [refresh_token, hb]
  · intro h
    match r with
    | .error => rfl
    | .ok status body =>
      by_cases hs : status = 200
      · subst hs
        match hb : body.access_token with
        | some t => simp [refresh_token, hb] at h
        | none => simp [refresh_token, hb]
      · simp [refresh_token, hs]

/-- Witness for C3: a successful 200 response with token `"tok"` and
`expires_in = 7200` at time 1000 caches expiry `1000 + 7200 - 60`; an
errored POST leaves the state unchanged. -/
theorem c3_refresh_token_witness :
    refresh_token ⟨none, 0⟩ 1000
        (.ok 200 ⟨some [116, 111, 107], some 7200⟩) =
      ({ token := some [116, 111, 107], token_expires_at := 8140 }, true) ∧
    refresh_token ⟨some [116, 111, 107], 8140⟩ 2000 .error =
      (⟨some [116, 111, 107], 8140⟩, false) := by
  constructor
  · exact (c3_refresh_token ⟨none, 0⟩ 1000
      (.ok 200 ⟨some [116, 111, 107], some 7200⟩)).2.1
      ⟨some [116, 111, 107], some 7200⟩ [116, 111, 107] rfl rfl
  · exact (c3_refresh_token ⟨some [116, 111, 107], 8140⟩ 2000 .error).2.2 rfl

end ApiClient

namespace DataStorage

/-- A stored record as far as retention (`src/utils/data_storage.py`) is
concerned: its `id` primary key and its `timestamp` column. -/
structure Rec where
  id : Nat
  timestamp : Int
  deriving Repr, DecidableEq

/-- Comparison by the `timestamp` column, the order used by
`ORDER BY timestamp ASC`. -/
def tsLe (a b : Rec) : Bool := a.timestamp ≤ b.timestamp

/-- Python's slice `l[-max:]`: for `max ≥ 1` the last `max` elements, but for
`max = 0` the slice `l[-0:] = l[0:]` is the *whole* list. -/
def pySliceLast (max : Nat) (l : List Rec) : List Rec :=
  if max = 0 then l else l.drop (l.length - max)

/-- The in-process branch of `add_record` (`src/utils/data_storage.py` lines
69-73): append, then if `len(database) > max_records` keep
`database[-max_records:]`. -/
def memAddRecord (max : Nat) (database : List Rec) (rec : Rec) : List Rec :=
  let db := database ++ [rec]
  if db.length > max then pySliceLast max db else db

/-- `prune_old` for the relational backing (`src/utils/data_storage.py` lines
88-107): if the count exceeds `max_records`, delete the rows whose ids are
selected by `ORDER BY timestamp ASC LIMIT (count - max_records)`.  The table
is modelled in insertion order; the subquery's ordering is modelled by the
stable `mergeSort` on the timestamp column. -/
def dbPruneOld (max : Nat) (table : List Rec) : List Rec :=
  if table.length > max then
    let records_to_delete := table.length - max
    let deletedIds := ((table.mergeSort tsLe).take records_to_delete).map Rec.id
    table.filter (fun r => decide (r.id ∉ deletedIds))
  else table

/-- The relational branch of `add_record` (`src/utils/data_storage.py` lines
56-68): INSERT the row, then immediately `prune_old()`. -/
def dbAddRecord (max : Nat) (table : List Rec) (rec : Rec) : List Rec :=
  dbPruneOld max (table ++ [rec])

theorem tsLe_trans : ∀ a b c : Rec, tsLe a b = true → tsLe b c = true → tsLe a c = true := by
  intro a b c hab hbc
  simp only [tsLe, decide_eq_true_eq] at *
  omega

theorem tsLe_total : ∀ a b : Rec, (tsLe a b || tsLe b a) = true := by
  intro a b
  simp only [tsLe, Bool.or_eq_true, decide_eq_true_eq]
  omega

/-- With pairwise-distinct ids, the prune subquery's id set picks out exactly
the `records_to_delete` oldest rows, so pruning leaves `min count max` rows. -/
theorem dbPruneOld_length (max : Nat) (t : List Rec)
    (hnd : (t.map Rec.id).Nodup) :
    (dbPruneOld max t).length = min t.length max := by
  unfold dbPruneOld
  by_cases hlen : t.length > max
  · simp only [hlen, if_true]
    set n := t.length - max with hn
    set sorted := t.mergeSort tsLe with hsorted
    have hperm : sorted.Perm t := List.mergeSort_perm t tsLe
    have hnd_s : (sorted.map Rec.id).Nodup := ((hperm.map Rec.id).nodup_iff).mpr hnd
    set D := (sorted.take n).map Rec.id with hD
    have hmap_split : sorted.map Rec.id
        = (sorted.take n).map Rec.id ++ (sorted.drop n).map Rec.id := by
      rw [← List.map_append, List.take_append_drop]
    have hdisj : ∀ a ∈ (sorted.take n).map Rec.id,
        a ∉ (sorted.drop n).map Rec.id := by
      have := hmap_split ▸ hnd_s
      exact fun a ha hb => (List.nodup_append.mp this).2.2 ha hb
    have hfilter_take :
        sorted.filter (fun r => decide (r.id ∈ D)) = sorted.take n := by
      conv_lhs => rw [← List.take_append_drop n sorted]
      rw [List.filter_append]
      have h1 : (sorted.take n).filter (fun r => decide (r.id ∈ D)) = sorted.take n :=
        List.filter_eq_self.mpr fun r hr => by
          simp only [decide_eq_true_eq, hD]
          exact List.mem_map_of_mem Rec.id hr
      have h2 : (sorted.drop n).filter (fun r => decide (r.id ∈ D)) = [] :=
        List.filter_eq_nil_iff.mpr fun r hr => by
          simp only [decide_eq_true_eq, hD]
          exact fun hmem => hdisj r.id hmem (List.mem_map_of_mem Rec.id hr)
      rw [h1, h2, List.append_nil]
    have hcount : (t.filter (fun r => decide (r.id ∈ D))).length = n := by
      have hp : (t.filter (fun r => decide (r.id ∈ D))).Perm
          (sorted.filter (fun r => decide (r.id ∈ D))) := (hperm.filter _).symm
      have hslen : sorted.length = t.length := hperm.length_eq
      rw [hp.length_eq, hfilter_take, List.length_take]
      omega
    have hsum : (t.filter (fun r => decide (r.id ∈ D))).length
        + (t.filter (fun r => !decide (r.id ∈ D))).length = t.length := by
      have := (List.filter_append_perm (fun r => decide (r.id ∈ D)) t).length_eq
      simpa [List.length_append] using this
    have hneg : (t.filter (fun r => decide (r.id ∉ D)))
        = t.filter (fun r => !decide (r.id ∈ D)) := by
      apply List.filter_congr
      intro r _
      simp [decide_not]
    rw [hneg]
    omega
  · simp only [hlen, if_false]
    omega

/-- With pairwise-distinct ids, every row removed by `dbPruneOld` is at least
as old (by timestamp) as every row it keeps. -/
theorem dbPruneOld_oldest (max : Nat) (t : List Rec)
    (hnd : (t.map Rec.id).Nodup) :
    ∀ r ∈ t, r ∉ dbPruneOld max t →
      ∀ s ∈ dbPruneOld max t, r.timestamp ≤ s.timestamp := by
  intro r hr hrout s hs
  unfold dbPruneOld at hrout hs
  by_cases hlen : t.length > max
  · simp only [hlen, if_true] at hrout hs
    set n := t.length - max with hn
    set sorted := t.mergeSort tsLe with hsorted
    have hperm : sorted.Perm t := List.mergeSort_perm t tsLe
    have hnd_s : (sorted.map Rec.id).Nodup := ((hperm.map Rec.id).nodup_iff).mpr hnd
    set D := (sorted.take n).map Rec.id with hD
    have hinj : ∀ x ∈ sorted, ∀ y ∈ sorted, x.id = y.id → x = y :=
      List.inj_on_of_nodup_map hnd_s
    -- r was filtered out, so its id is in the deleted set
    have hrD : r.id ∈ D := by
      by_contra hnotin
      exact hrout (List.mem_filter.mpr ⟨hr, by simpa using hnotin⟩)
    -- s was kept, so its id is not in the deleted set
    have hsmem : s ∈ t := (List.mem_filter.mp hs).1
    have hsD : s.id ∉ D := by
      have := (List.mem_filter.mp hs).2
      simpa using this
    -- locate r in the sorted prefix
    rcases List.mem_map.mp hrD with ⟨r', hr'take, hr'id⟩
    have hr_s : r ∈ sorted := hperm.mem_iff.mpr hr
    have hr'_s : r' ∈ sorted := List.mem_of_mem_take hr'take
    have hrr' : r' = r := hinj r' hr'_s r hr_s hr'id
    have hrtake : r ∈ sorted.take n := hrr' ▸ hr'take
    -- locate s in the sorted suffix
    have hs_s : s ∈ sorted := hperm.mem_iff.mpr hsmem
    have hsdrop : s ∈ sorted.drop n := by
      rcases (List.mem_append.mp ((List.take_append_drop n sorted).symm ▸ hs_s)) with h | h
      · exact absurd (List.mem_map_of_mem Rec.id h) hsD
      · exact h
    -- sortedness across the take/drop split
    have hsort : sorted.Pairwise (fun a b => tsLe a b = true) :=
      List.sorted_mergeSort tsLe_trans tsLe_total t
    have hsplit := (List.take_append_drop n sorted).symm ▸ hsort
    have hle := (List.pairwise_append.mp hsplit).2.2 r hrtake s hsdrop
    simpa [tsLe, decide_eq_true_eq] using hle
  · simp only [hlen, if_false] at hrout
    exact absurd hr hrout

/-- C2 counterexample: with the configured maximum `max_records = 0`, the
in-process backing's slice `database[-0:]` keeps every record, so after an
`add_record` call the store holds 1 > 0 records. -/
theorem c2_counterexample :
    (memAddRecord 0 [] ⟨1, 5⟩).length = 1 ∧
      ¬ (memAddRecord 0 [] ⟨1, 5⟩).length ≤ 0 := by
  constructor <;> decide

/-- C2 (amended): after any `add_record` call the store holds
`min (previous + 1) max_records` records — in particular never more than the
configured maximum — provided `max_records ≥ 1` for the in-process backing
(at `max_records = 0` its Python slice `database[-0:]` keeps everything) and
provided the row ids are pairwise distinct for the relational backing; the
records removed are exactly the oldest ones: the in-process backing drops the
oldest prefix in append order, and the relational backing only deletes rows
whose timestamp is ≤ the timestamp of every row it keeps. -/
theorem c2_retention (max : Nat) (db : List Rec) (rec : Rec) :
    (1 ≤ max →
      memAddRecord max db rec = (db ++ [rec]).drop (db.length + 1 - max) ∧
      (memAddRecord max db rec).length = min (db.length + 1) max) ∧
    ((((db ++ [rec]).map Rec.id).Nodup) →
      (dbAddRecord max db rec).length = min (db.length + 1) max ∧
      ∀ r ∈ db ++ [rec], r ∉ dbAddRecord max db rec →
        ∀ s ∈ dbAddRecord max db rec, r.timestamp ≤ s.timestamp) := by
  constructor
  · intro hmax
    have hlen : (db ++ [rec]).length = db.length + 1 := by
      simp [List.length_append]
    have heq : memAddRecord max db rec = (db ++ [rec]).drop (db.length + 1 - max) := by
      unfold memAddRecord pySliceLast
      by_cases hgt : (db ++ [rec]).length > max
      · simp only [hgt, if_true]
        have : ¬ max = 0 := by omega
        simp only [this, if_false, hlen]
      · simp only [hgt, if_false]
        have : db.length + 1 - max = 0 := by omega
        rw [this, List.drop_zero]
    refine ⟨heq, ?_⟩
    rw [heq, List.length_drop, hlen]
    omega
  · intro hnd
    have hlen : (db ++ [rec]).length = db.length + 1 := by
      simp [List.length_append]
    refine ⟨?_, dbPruneOld_oldest max (db ++ [rec]) hnd⟩
    have := dbPruneOld_length max (db ++ [rec]) hnd
    rw [hlen] at this
    exact this

/-- Witness for C2 (amended): a concrete in-process store at capacity 2 drops
its oldest record on insert, and a concrete relational store at capacity 2
prunes the oldest-by-timestamp row. -/
theorem c2_retention_witness :
    (memAddRecord 2 [⟨1, 10⟩, ⟨2, 20⟩] ⟨3, 30⟩ = [⟨2, 20⟩, ⟨3, 30⟩] ∧
      (memAddRecord 2 [⟨1, 10⟩, ⟨2, 20⟩] ⟨3, 30⟩).length = 2) ∧
    ((dbAddRecord 2 [⟨1, 10⟩, ⟨2, 20⟩] ⟨3, 5⟩).length = 2 ∧
      ∀ r ∈ [⟨1, 10⟩, ⟨2, 20⟩] ++ [⟨3, 5⟩], r ∉ dbAddRecord 2 [⟨1, 10⟩, ⟨2, 20⟩] ⟨3, 5⟩ →
        ∀ s ∈ dbAddRecord 2 [⟨1, 10⟩, ⟨2, 20⟩] ⟨3, 5⟩, r.timestamp ≤ s.timestamp) := by
  constructor
  · have h := (c2_retention 2 [⟨1, 10⟩, ⟨2, 20⟩] ⟨3, 30⟩).1 (by decide)
    refine ⟨?_, ?_⟩
    · rw [h.1]; decide
    · rw [h.2]; decide
  · have h := (c2_retention 2 [⟨1, 10⟩, ⟨2, 20⟩] ⟨3, 5⟩).2 (by decide)
    exact ⟨by rw [h.1]; decide, h.2⟩

/-- A Python value as it can appear in a `record_list` passed to
`add_record`: `None`, a string, an integer, or a float. -/
inductive PyVal where
  | vnone : PyVal
  | vstr (s : List Nat) : PyVal
  | vint (n : Int) : PyVal
  | vfloat (q : Rat) : PyVal
  deriving Repr, DecidableEq

/-- The normalization comprehension of the relational branch of `add_record`
(`src/utils/data_storage.py` line 59): `"" if v is None else v`. -/
def normalizeField (v : PyVal) : PyVal :=
  match v with
  | .vnone => .vstr []
  | v => v

/-- The row actually inserted by the relational branch of `add_record`
(lines 56-66): the record with every `None` field replaced by `""`. -/
def dbInsertRow (record_list : List PyVal) : List PyVal :=
  record_list.map normalizeField

/-- The in-process branch of `add_record` (lines 69-73) at row-content level:
the raw `record_list` is appended *without any normalization*, then the list
is pruned to the newest `max_records` entries. -/
def memAddRecordRaw (max : Nat) (database : List (List PyVal))
    (record_list : List PyVal) : List (List PyVal) :=
  let db := database ++ [record_list]
  if db.length > max then
    (if max = 0 then db else db.drop (db.length - max))
  else db

/-- C8 counterexample: adding a record with a `None` field through the
in-process backing stores the `None` verbatim, while the relational backing
would store `""` — the two backings do not honor the normalization
identically. -/
theorem c8_counterexample :
    memAddRecordRaw 100 [] [PyVal.vnone] = [[PyVal.vnone]] ∧
      PyVal.vnone ∈ [PyVal.vnone] ∧
      PyVal.vnone ∉ dbInsertRow [PyVal.vnone] := by
  refine ⟨by decide, by decide, by decide⟩

/-- C8 (amended): only the relational branch of `add_record` normalizes
absent (`None`) fields to the empty string before writing — no field of a row
it inserts is ever `None`; the in-process branch appends the record list
unchanged (`None` fields included), and the newly added row is always present
in the resulting store. -/
theorem c8_normalization (record_list : List PyVal) (max : Nat)
    (database : List (List PyVal)) :
    (∀ v ∈ dbInsertRow record_list, v ≠ PyVal.vnone) ∧
      record_list ∈ memAddRecordRaw max database record_list := by
  constructor
  · intro v hv
    rcases List.mem_map.mp hv with ⟨w, _, hw⟩
    cases w <;> simp [normalizeField] at hw <;> simp [← hw]
  · unfold memAddRecordRaw
    by_cases hgt : (database ++ [record_list]).length > max
    · simp only [hgt, if_true]
      by_cases hmax : max = 0
      · simp only [hmax, if_true]
        exact List.mem_append_right _ (List.mem_singleton_self _)
      · simp only [hmax, if_false]
        have hlen : (database ++ [record_list]).length = database.length + 1 := by
          simp [List.length_append]
        have hle : (database ++ [record_list]).length - max ≤ database.length := by
          omega
        rw [List.drop_append_of_le_length hle]
        exact List.mem_append_right _ (List.mem_singleton_self _)
    · simp only [hgt, if_false]
      exact List.mem_append_right _ (List.mem_singleton_self _)

end DataStorage

namespace Overview

/-- A buffered record as consumed by `_upload_records`
(`src/screens/overview.py` lines 695-793): its id (`row[0]`), latitude
(`row[4]`) and longitude (`row[5]`); the remaining columns do not influence
the control flow under test. -/
structure URec where
  id : Nat
  latitude : Rat
  longitude : Rat
  deriving Repr, DecidableEq

/-- The no-GPS filter (lines 722-731): a record is kept unless both
coordinates are zero.  (`row[4] if row[4] else 0` maps the falsy `0.0` to
`0`, so the test is exactly `lat = 0 ∧ lon = 0`.) -/
def validGps (r : URec) : Bool := !(r.latitude == 0 && r.longitude == 0)

/-- `delete_uploaded_records` (`src/utils/data_storage.py` lines 113-131):
no-op on an empty id list, otherwise remove every record whose id is in the
list (both backings delete by id membership). -/
def delete_uploaded_records (store : List URec) (record_ids : List Nat) :
    List URec :=
  if record_ids.isEmpty then store
  else store.filter (fun r => decide (r.id ∉ record_ids))

/-- The number of iterations of the batching loop `while batch_number *
max_upload_records < total_records` when no batch fails: `⌈N / B⌉`. -/
def max_batches (B N : Nat) : Nat := (N + B - 1) / B

/-- Iterated batch slicing: iteration `k` of the loop takes
`valid_records[start_idx:end_idx]` with `start_idx = k * B`; successive
iterations see the remainder after dropping `B` records.  The fuel argument
is the loop's iteration bound. -/
def chunksGo (B : Nat) : Nat → List URec → List (List URec)
  | 0, _ => []
  | n + 1, l => l.take B :: chunksGo B n (l.drop B)

/-- The batches `_upload_records` would slice from the valid records. -/
def chunksB (B : Nat) (l : List URec) : List (List URec) :=
  chunksGo B (max_batches B l.length) l

/-- The batching loop of `_upload_records` (lines 741-786): for each batch in
order, `if payload and self.api.upload_records(payload)` — an empty payload
short-circuits without an upload call and breaks; on upload success the
batch's ids are deleted and the loop continues; on failure the loop breaks.
`succ k` is the outcome of the `k`-th `upload_records` call; the result is
(the list of batches for which an upload call was made, in order; the final
store). -/
def uploadLoop (succ : Nat → Bool) : Nat → List URec → List (List URec) →
    List (List URec) × List URec
  | _, store, [] => ([], store)
  | k, store, c :: cs =>
    if c.isEmpty then ([], store)
    else if succ k then
      let rest := uploadLoop succ (k + 1)
        (delete_uploaded_records store (c.map URec.id)) cs
      (c :: rest.1, rest.2)
    else ([c], store)

/-- One `_upload_records` cycle over a store snapshot (the concluding
best-effort `prune_old()` is housekeeping outside this cycle's claim and only
acts when the store exceeds its retention cap). -/
def uploadRecordsCycle (store : List URec) (B : Nat) (succ : Nat → Bool) :
    List (List URec) × List URec :=
  let valid := store.filter validGps
  uploadLoop succ 0 store (chunksB B valid)

theorem delete_eq_filter (store : List URec) (ids : List Nat) :
    delete_uploaded_records store ids
      = store.filter (fun r => decide (r.id ∉ ids)) := by
  unfold delete_uploaded_records
  by_cases h : ids.isEmpty
  · rw [if_pos h]
    rw [List.isEmpty_iff] at h
    subst h
    simp
  · rw [if_neg h]

theorem filter_notin_append (store : List URec) (ids1 ids2 : List Nat) :
    (store.filter (fun r => decide (r.id ∉ ids1))).filter
        (fun r => decide (r.id ∉ ids2))
      = store.filter (fun r => decide (r.id ∉ ids1 ++ ids2)) := by
  rw [List.filter_filter]
  apply List.filter_congr
  intro r _
  simp only [List.mem_append, not_or]
  rw [Bool.decide_and]
  exact Bool.and_comm _ _

theorem chunksGo_length (B n : Nat) (l : List URec) :
    (chunksGo B n l).length = n := by
  induction n generalizing l with
  | zero => rfl
  | succ n ih => simp [chunksGo, ih]

theorem chunksGo_flatten (B n : Nat) (l : List URec) (h : l.length ≤ n * B) :
    (chunksGo B n l).flatten = l := by
  induction n generalizing l with
  | zero =>
    simp only [Nat.zero_mul, Nat.le_zero, List.length_eq_zero] at h
    subst h
    rfl
  | succ n ih =>
    have hdrop : (l.drop B).length ≤ n * B := by
      rw [List.length_drop]
      have hmul : (n + 1) * B = n * B + B := by ring
      omega
    simp [chunksGo, ih _ hdrop]

theorem chunksGo_ne_nil (B n : Nat) (l : List URec) (hB : 0 < B)
    (h : (n - 1) * B < l.length) : [] ∉ chunksGo B n l := by
  induction n generalizing l with
  | zero => simp [chunksGo]
  | succ n ih =>
    simp only [chunksGo, List.mem_cons, not_or]
    constructor
    · have hpos : 0 < l.length := Nat.lt_of_le_of_lt (Nat.zero_le _) h
      intro htake
      rcases List.take_eq_nil_iff.mp htake.symm with hB0 | hl0
      · omega
      · subst hl0
        simp at hpos
    · rcases n with _ | m
      · simp [chunksGo]
      · apply ih
        rw [List.length_drop]
        have h1 : (m + 1 + 1 - 1) * B = (m + 1) * B := by simp
        rw [h1] at h
        have h2 : (m + 1) * B = m * B + B := by ring
        have h3 : (m + 1 - 1) * B = m * B := by simp
        rw [h3]
        omega

theorem uploadLoop_all (succ : Nat → Bool) (h : ∀ j, succ j = true) :
    ∀ cs k store, [] ∉ cs →
      uploadLoop succ k store cs
        = (cs, store.filter
            (fun r => decide (r.id ∉ cs.flatten.map URec.id))) := by
  intro cs
  induction cs with
  | nil =>
    intro k store _
    simp [uploadLoop]
  | cons c cs ih =>
    intro k store hne
    have hc : c.isEmpty = false := by
      simp only [List.mem_cons, not_or] at hne
      simpa [List.isEmpty_iff] using fun he => hne.1 he.symm
    have hcs : [] ∉ cs := by
      simp only [List.mem_cons, not_or] at hne
      exact hne.2
    simp only [uploadLoop, hc, Bool.false_eq_true, if_false, h k, if_true]
    rw [ih (k + 1) _ hcs, delete_eq_filter, filter_notin_append]
    simp [List.flatten_cons]

theorem uploadLoop_fail (succ : Nat → Bool) :
    ∀ cs f k store, (∀ j, j < f → succ (k + j) = true) → succ (k + f) = false →
      f < cs.length → [] ∉ cs →
      uploadLoop succ k store cs
        = (cs.take (f + 1), store.filter
            (fun r => decide (r.id ∉ ((cs.take f).flatten.map URec.id)))) := by
  intro cs
  induction cs with
  | nil =>
    intro f k store _ _ hf _
    simp at hf
  | cons c cs ih =>
    intro f k store hpre hf hflen hne
    have hc : c.isEmpty = false := by
      simp only [List.mem_cons, not_or] at hne
      simpa [List.isEmpty_iff] using fun he => hne.1 he.symm
    have hcs : [] ∉ cs := by
      simp only [List.mem_cons, not_or] at hne
      exact hne.2
    rcases f with _ | g
    · have hk : succ k = false := by simpa using hf
      simp [uploadLoop, hc, hk]
    · have hk : succ k = true := by
        have := hpre 0 (Nat.succ_pos g)
        simpa using this
      simp only [uploadLoop, hc, Bool.false_eq_true, if_false, hk, if_true]
      have hpre' : ∀ j, j < g → succ (k + 1 + j) = true := by
        intro j hj
        have := hpre (j + 1) (by omega)
        have harith : k + (j + 1) = k + 1 + j := by omega
        rwa [harith] at this
      have hf' : succ (k + 1 + g) = false := by
        have harith : k + 1 + g = k + (g + 1) := by omega
        rw [harith]
        exact hf
      have hflen' : g < cs.length := by
        simpa using Nat.lt_of_succ_lt_succ hflen
      rw [ih g (k + 1) _ hpre' hf' hflen' hcs, delete_eq_filter,
        filter_notin_append]
      simp [List.take_succ_cons, List.flatten_cons]

/-- With distinct ids, deleting the ids of all valid records from the store
removes exactly the valid records. -/
theorem filter_valid_ids (store : List URec)
    (hnd : (store.map URec.id).Nodup) :
    store.filter
        (fun r => decide (r.id ∉ (store.filter validGps).map URec.id))
      = store.filter (fun r => !validGps r) := by
  apply List.filter_congr
  intro r hr
  by_cases hv : validGps r = true
  · have hmem : r.id ∈ (store.filter validGps).map URec.id :=
      List.mem_map_of_mem URec.id (List.mem_filter.mpr ⟨hr, hv⟩)
    simp [hmem, hv]
  · have hinj : ∀ x ∈ store, ∀ y ∈ store, x.id = y.id → x = y :=
      List.inj_on_of_nodup_map hnd
    have hnmem : r.id ∉ (store.filter validGps).map URec.id := by
      intro hmem
      rcases List.mem_map.mp hmem with ⟨r', hr', hid⟩
      have hr'store : r' ∈ store := (List.mem_filter.mp hr').1
      have heq : r' = r := hinj r' hr'store r hr hid
      subst heq
      exact hv (List.mem_filter.mp hr').2
    simp [hnmem, hv]

theorem chunksB_ne_nil (B : Nat) (l : List URec) (hB : 0 < B) :
    [] ∉ chunksB B l := by
  unfold chunksB max_batches
  rcases Nat.eq_zero_or_pos l.length with h0 | hpos
  · have hz : (l.length + B - 1) / B = 0 := by
      rw [h0]
      exact Nat.div_eq_of_lt (by omega)
    rw [hz]
    simp [chunksGo]
  · apply chunksGo_ne_nil _ _ _ hB
    have hql : (l.length + B - 1) / B * B ≤ l.length + B - 1 :=
      Nat.div_mul_le_self _ _
    have hsub : ((l.length + B - 1) / B - 1) * B
        = (l.length + B - 1) / B * B - B := Nat.sub_one_mul _ _
    omega

theorem chunksB_flatten (B : Nat) (l : List URec) (hB : 0 < B) :
    (chunksB B l).flatten = l := by
  unfold chunksB max_batches
  apply chunksGo_flatten
  have h2 := Nat.div_add_mod (l.length + B - 1) B
  have h3 := Nat.mod_lt (l.length + B - 1) hB
  have h5 : B * ((l.length + B - 1) / B) = (l.length + B - 1) / B * B :=
    Nat.mul_comm _ _
  omega

/-- C1 counterexample: the claim fails when record ids are not distinct —
with the in-process backing every row's id slot holds the literal `True`
(`src/screens/overview.py` line 453), modelled here as two records with id 1.
With batch size 1, batch 1 succeeding and batch 2 failing, deleting batch 1's
ids removes *both* records, so the record of the failed batch 2 does not
remain in the store as the claim requires. -/
theorem c1_counterexample :
    ((fun k => decide (k = 0)) 1 = false) ∧
      (uploadRecordsCycle [⟨1, 1, 1⟩, ⟨1, 2, 2⟩] 1 (fun k => decide (k = 0))).1
        = [[⟨1, 1, 1⟩], [⟨1, 2, 2⟩]] ∧
      (uploadRecordsCycle [⟨1, 1, 1⟩, ⟨1, 2, 2⟩] 1 (fun k => decide (k = 0))).2
        = [] ∧
      (⟨1, 2, 2⟩ : URec) ∉
        (uploadRecordsCycle [⟨1, 1, 1⟩, ⟨1, 2, 2⟩] 1 (fun k => decide (k = 0))).2 := by
  refine ⟨rfl, by decide, by decide, by decide⟩

/-- C1 (amended): for an upload cycle over a store snapshot whose records
have pairwise-distinct ids (true for the relational backing; the in-process
backing stores the literal `True` as every id, where the claim fails) and a
batch size `B ≥ 1`: the records with non-zero GPS are taken oldest-first and
chunked into batches of size `B`; if every upload call succeeds, exactly
`⌈N/B⌉` upload calls are made in oldest-first order and all `N` valid records
are deleted from the store (zero-GPS records are never uploaded nor deleted);
if the batch of index `f` (0-based) is the first to fail, the calls made are
exactly the batches `0..f`, and only the ids of batches `0..f-1` are deleted
— the records of the failed and unattempted batches remain. -/
theorem c1_upload_batching (store : List URec) (B : Nat) (succ : Nat → Bool)
    (hB : 0 < B) (hnd : (store.map URec.id).Nodup) :
    ((∀ k, succ k = true) →
      (uploadRecordsCycle store B succ).1 = chunksB B (store.filter validGps) ∧
      (chunksB B (store.filter validGps)).length
        = ((store.filter validGps).length + B - 1) / B ∧
      (uploadRecordsCycle store B succ).2
        = store.filter (fun r => !validGps r)) ∧
    (∀ f, (∀ j, j < f → succ j = true) → succ f = false →
      f < (chunksB B (store.filter validGps)).length →
      (uploadRecordsCycle store B succ).1
        = (chunksB B (store.filter validGps)).take (f + 1) ∧
      (uploadRecordsCycle store B succ).2
        = store.filter (fun r => decide (r.id ∉
            (((chunksB B (store.filter validGps)).take f).flatten.map
              URec.id)))) := by
  have hne : [] ∉ chunksB B (store.filter validGps) :=
    chunksB_ne_nil B _ hB
  constructor
  · intro hall
    have hrun := uploadLoop_all succ hall
      (chunksB B (store.filter validGps)) 0 store hne
    have hcycle : uploadRecordsCycle store B succ
        = uploadLoop succ 0 store (chunksB B (store.filter validGps)) := rfl
    refine ⟨?_, ?_, ?_⟩
    · rw [hcycle, hrun]
    · unfold chunksB
      rw [chunksGo_length]
      rfl
    · rw [hcycle, hrun]
      simp only
      rw [chunksB_flatten B _ hB]
      exact filter_valid_ids store hnd
  · intro f hpre hf hflen
    have hrun := uploadLoop_fail succ
      (chunksB B (store.filter validGps)) f 0 store
      (fun j hj => by simpa using hpre j hj) (by simpa using hf) hflen hne
    have hcycle : uploadRecordsCycle store B succ
        = uploadLoop succ 0 store (chunksB B (store.filter validGps)) := rfl
    rw [hcycle, hrun]
    exact ⟨rfl, rfl⟩

/-- Witness for C1 (amended): three records with distinct ids, one of them
zero-GPS, batch size 2, all uploads succeeding: one upload call carrying the
two valid records is made, and afterwards only the zero-GPS record remains. -/
theorem c1_upload_batching_witness :
    (uploadRecordsCycle [⟨1, 1, 1⟩, ⟨2, 0, 0⟩, ⟨3, 2, 2⟩] 2 (fun _ => true)).1
        = [[⟨1, 1, 1⟩, ⟨3, 2, 2⟩]] ∧
      (uploadRecordsCycle [⟨1, 1, 1⟩, ⟨2, 0, 0⟩, ⟨3, 2, 2⟩] 2
          (fun _ => true)).2 = [⟨2, 0, 0⟩] := by
  have h := (c1_upload_batching [⟨1, 1, 1⟩, ⟨2, 0, 0⟩, ⟨3, 2, 2⟩] 2
    (fun _ => true) (by decide) (by decide)).1 (fun _ => rfl)
  constructor
  · rw [h.1]
    decide
  · rw [h.2.2]
    decide

end Overview

namespace Gps

/-- One iteration of the GPS manager's connection/read logic
(`src/utils/gps.py`): `connectOk`/`connectFail` are the two outcomes of
`_connect` (lines 28-39), `readOk`/`readExn` the two outcomes of the
`read_serial_data()` call in `run` (lines 79-90). -/
inductive GpsEv where
  | connectOk : GpsEv
  | connectFail : GpsEv
  | readOk : GpsEv
  | readExn : GpsEv
  deriving Repr, DecidableEq

/-- The effect of one event on `self.connectivity` and the `sig_msg`
emission (`some b` = `self.sig_msg.emit(b)`, `none` = no emission), embedded
from `src/utils/gps.py`: `_connect` success emits `True` only when
`connectivity` was `False` (lines 31-33); `_connect` failure emits `False`
only when it was `True` (lines 36-38); a successful read emits `True` only
when it was `False` (lines 81-83); an exception during read emits `False`
only when it was `True` (lines 88-90). -/
def gpsStep (connectivity : Bool) : GpsEv → Bool × Option Bool
  | .connectOk => if connectivity then (true, none) else (true, some true)
  | .connectFail => if connectivity then (false, some false) else (false, none)
  | .readOk => if connectivity then (true, none) else (true, some true)
  | .readExn => if connectivity then (false, some false) else (false, none)

/-- The emissions of the GPS loop over an event sequence. -/
def gpsRun (connectivity : Bool) : List GpsEv → List Bool
  | [] => []
  | e :: es =>
    match gpsStep connectivity e with
    | (c, some b) => b :: gpsRun c es
    | (c, none) => gpsRun c es

/-- The trace of `self.connectivity` values after each event. -/
def gpsStates (connectivity : Bool) : List GpsEv → List Bool
  | [] => []
  | e :: es =>
    let c := (gpsStep connectivity e).1
    c :: gpsStates c es

/-- One iteration of the RFID manager's steady-state ping loop
(`src/utils/rfid.py` lines 180-210) together with the outcomes of one
discovery pass (`_attempt_discovery`, lines 212-341).  Emissions are the
connectivity signal codes, mapped to booleans: `emit(1)` (Connected) is
`true`, `emit(2)` (Disconnected) is `false` (code 3 is the tag signal, not
connectivity). -/
inductive RfidEv where
  /-- ping returned a time and, if disconnected, the reconnect
  (`disconnect_all` + `_set_reader(host, True)` + `reader.connect()`)
  succeeded. -/
  | pingUpReconnectOk : RfidEv
  /-- ping returned a time, the loop entered the reconnect branch
  (`_set_reader(self.host, True)` already set `connectivity = True`), and
  then `reader.connect()` raised. -/
  | pingUpReconnectExn : RfidEv
  /-- ping returned `None`. -/
  | pingDown : RfidEv
  /-- the ping call itself raised. -/
  | pingErr : RfidEv
  /-- a discovery pass found a candidate and connected to it. -/
  | discoveryConnectOk : RfidEv
  /-- a discovery pass found a candidate but `reader.connect()` failed. -/
  | discoveryConnectFail : RfidEv
  deriving Repr, DecidableEq

/-- The effect of one event on `self.connectivity` and the emitted signal,
embedded from `src/utils/rfid.py`.  `pingUpReconnectOk` from Disconnected:
`_set_reader(host, True)` then `emit(1)` (lines 184-191).
`pingUpReconnectExn` from Disconnected: `_set_reader` has set
`connectivity = True`, `reader.connect()` raises, and the handler sees
`connectivity is True` so it sets it back to `False` and emits `2` (lines
201-204) — an emission with no actual state change.  `pingDown`/`pingErr`
emit `2` exactly when the state was Connected (lines 193-195, 202-204).
Discovery connect success emits `1` (lines 291-293 / 317-319); discovery
connect failure emits `2` from an already-Disconnected state (lines 296-299 /
322-325).  Events tied to the disconnected-only branches are no-ops when
Connected. -/
def rfidStep (connectivity : Bool) : RfidEv → Bool × Option Bool
  | .pingUpReconnectOk => if connectivity then (true, none) else (true, some true)
  | .pingUpReconnectExn => if connectivity then (true, none) else (false, some false)
  | .pingDown => if connectivity then (false, some false) else (false, none)
  | .pingErr => if connectivity then (false, some false) else (false, none)
  | .discoveryConnectOk => if connectivity then (true, none) else (true, some true)
  | .discoveryConnectFail => if connectivity then (true, none) else (false, some false)

/-- The emissions of the RFID steady-state loop over an event sequence. -/
def rfidRun (connectivity : Bool) : List RfidEv → List Bool
  | [] => []
  | e :: es =>
    match rfidStep connectivity e with
    | (c, some b) => b :: rfidRun c es
    | (c, none) => rfidRun c es

/-- The trace of `self.connectivity` values after each event. -/
def rfidStates (connectivity : Bool) : List RfidEv → List Bool
  | [] => []
  | e :: es =>
    let c := (rfidStep connectivity e).1
    c :: rfidStates c es

theorem destutter_head_eq {α : Type} (R : α → α → Prop) [DecidableRel R]
    (l : List α) : ∀ a, ∃ t, l.destutter' R a = a :: t := by
  induction l with
  | nil => exact fun a => ⟨[], rfl⟩
  | cons b l ih =>
    intro a
    rw [List.destutter'_cons]
    split_ifs with h
    · exact ⟨_, rfl⟩
    · exact ih a

/-- The tail of a destuttered trace after a genuine change is the changed
value followed by the destuttered remainder. -/
theorem destutter_tail_change (c c' : Bool) (rest : List Bool) (h : c ≠ c') :
    ((c' :: rest).destutter' (· ≠ ·) c).tail
      = c' :: (rest.destutter' (· ≠ ·) c').tail := by
  rw [List.destutter'_cons, if_pos h]
  rcases destutter_head_eq (· ≠ ·) rest c' with ⟨t, ht⟩
  rw [ht]
  rfl

/-- The tail of a destuttered trace is unchanged by a repeated state. -/
theorem destutter_tail_same (c : Bool) (rest : List Bool) :
    ((c :: rest).destutter' (· ≠ ·) c).tail
      = (rest.destutter' (· ≠ ·) c).tail := by
  rw [List.destutter'_cons, if_neg (by simp)]

/-- The GPS loop's emissions are exactly the de-stuttered state changes. -/
theorem gpsRun_destutter (c : Bool) (evs : List GpsEv) :
    gpsRun c evs = ((gpsStates c evs).destutter' (· ≠ ·) c).tail := by
  induction evs generalizing c with
  | nil => rfl
  | cons e es ih =>
    cases e with
    | connectOk =>
      cases c with
      | false =>
        show true :: gpsRun true es
          = ((true :: gpsStates true es).destutter' (· ≠ ·) false).tail
        rw [destutter_tail_change false true _ (by simp), ih]
      | true =>
        show gpsRun true es
          = ((true :: gpsStates true es).destutter' (· ≠ ·) true).tail
        rw [destutter_tail_same, ih]
    | connectFail =>
      cases c with
      | false =>
        show gpsRun false es
          = ((false :: gpsStates false es).destutter' (· ≠ ·) false).tail
        rw [destutter_tail_same, ih]
      | true =>
        show false :: gpsRun false es
          = ((false :: gpsStates false es).destutter' (· ≠ ·) true).tail
        rw [destutter_tail_change true false _ (by simp), ih]
    | readOk =>
      cases c with
      | false =>
        show true :: gpsRun true es
          = ((true :: gpsStates true es).destutter' (· ≠ ·) false).tail
        rw [destutter_tail_change false true _ (by simp), ih]
      | true =>
        show gpsRun true es
          = ((true :: gpsStates true es).destutter' (· ≠ ·) true).tail
        rw [destutter_tail_same, ih]
    | readExn =>
      cases c with
      | false =>
        show gpsRun false es
          = ((false :: gpsStates false es).destutter' (· ≠ ·) false).tail
        rw [destutter_tail_same, ih]
      | true =>
        show false :: gpsRun false es
          = ((false :: gpsStates false es).destutter' (· ≠ ·) true).tail
        rw [destutter_tail_change true false _ (by simp), ih]

/-- The RFID loop's emissions over traces free of the two
duplicate-emitting events are exactly the de-stuttered state changes. -/
theorem rfidRun_destutter (c : Bool) (evs : List RfidEv)
    (hr : ∀ e ∈ evs, e ≠ .pingUpReconnectExn ∧ e ≠ .discoveryConnectFail) :
    rfidRun c evs = ((rfidStates c evs).destutter' (· ≠ ·) c).tail := by
  induction evs generalizing c with
  | nil => rfl
  | cons e es ih =>
    have he := hr e (List.mem_cons_self e es)
    have hes : ∀ e ∈ es, e ≠ RfidEv.pingUpReconnectExn ∧ e ≠ RfidEv.discoveryConnectFail :=
      fun x hx => hr x (List.mem_cons_of_mem e hx)
    cases e with
    | pingUpReconnectOk =>
      cases c with
      | false =>
        show true :: rfidRun true es
          = ((true :: rfidStates true es).destutter' (· ≠ ·) false).tail
        rw [destutter_tail_change false true _ (by simp), ih _ hes]
      | true =>
        show rfidRun true es
          = ((true :: rfidStates true es).destutter' (· ≠ ·) true).tail
        rw [destutter_tail_same, ih _ hes]
    | pingUpReconnectExn => exact absurd rfl he.1
    | pingDown =>
      cases c with
      | false =>
        show rfidRun false es
          = ((false :: rfidStates false es).destutter' (· ≠ ·) false).tail
        rw [destutter_tail_same, ih _ hes]
      | true =>
        show false :: rfidRun false es
          = ((false :: rfidStates false es).destutter' (· ≠ ·) true).tail
        rw [destutter_tail_change true false _ (by simp), ih _ hes]
    | pingErr =>
      cases c with
      | false =>
        show rfidRun false es
          = ((false :: rfidStates false es).destutter' (· ≠ ·) false).tail
        rw [destutter_tail_same, ih _ hes]
      | true =>
        show false :: rfidRun false es
          = ((false :: rfidStates false es).destutter' (· ≠ ·) true).tail
        rw [destutter_tail_change true false _ (by simp), ih _ hes]
    | discoveryConnectOk =>
      cases c with
      | false =>
        show true :: rfidRun true es
          = ((true :: rfidStates true es).destutter' (· ≠ ·) false).tail
        rw [destutter_tail_change false true _ (by simp), ih _ hes]
      | true =>
        show rfidRun true es
          = ((true :: rfidStates true es).destutter' (· ≠ ·) true).tail
        rw [destutter_tail_same, ih _ hes]
    | discoveryConnectFail => exact absurd rfl he.2

/-- C4 counterexample: starting Disconnected, the RFID loop sees a ping
success with a successful reconnect (emits Connected), then a ping failure
(emits Disconnected), then a ping success whose reconnect attempt raises —
which emits Disconnected *again* although the connectivity state never left
Disconnected: the signal is emitted twice consecutively with the same value
while the state is unchanged. -/
theorem c4_counterexample :
    rfidRun false
        [.pingUpReconnectOk, .pingDown, .pingUpReconnectExn]
      = [true, false, false] ∧
      ¬ List.Chain' (· ≠ ·) [true, false, false] ∧
      rfidStates false [.pingUpReconnectOk, .pingDown, .pingUpReconnectExn]
        = [true, false, false] ∧
      rfidRun false [.pingUpReconnectOk, .pingDown, .pingUpReconnectExn]
        ≠ ((rfidStates false
            [.pingUpReconnectOk, .pingDown, .pingUpReconnectExn]).destutter'
              (· ≠ ·) false).tail := by
  refine ⟨rfl, ?_, rfl, by decide⟩
  intro h
  exact (List.chain'_cons.mp (List.chain'_cons.mp h).2).1 rfl

/-- C4 (amended): the GPS manager's loop emits its boolean connectivity
signal exactly once per actual state transition and never twice consecutively
with the same value — its emission sequence equals the de-stuttered sequence
of state changes — for *every* event sequence; the RFID manager's loop
satisfies the same property only for event sequences in which no exception
interrupts the reconnect attempt after a successful ping and no discovery
connect attempt fails (either of those emits a duplicate Disconnected from an
unchanged Disconnected state). -/
theorem c4_connectivity_signaling (cg cr : Bool) (gevs : List GpsEv)
    (revs : List RfidEv)
    (hr : ∀ e ∈ revs, e ≠ RfidEv.pingUpReconnectExn ∧
      e ≠ RfidEv.discoveryConnectFail) :
    gpsRun cg gevs = ((gpsStates cg gevs).destutter' (· ≠ ·) cg).tail ∧
      rfidRun cr revs = ((rfidStates cr revs).destutter' (· ≠ ·) cr).tail := by
  exact ⟨gpsRun_destutter cg gevs, rfidRun_destutter cr revs hr⟩

/-- Witness for C4 (amended): a concrete GPS trace with a reconnect cycle and
a concrete exception-free RFID trace, both emitting exactly their state
changes. -/
theorem c4_connectivity_signaling_witness :
    (gpsRun false [.connectOk, .readOk, .readExn, .connectFail, .connectOk]
        = [true, false, true] ∧
      rfidRun false [.pingDown, .pingUpReconnectOk, .pingDown, .pingErr,
          .discoveryConnectOk]
        = [true, false, true]) ∧
      ((gpsStates false [.connectOk, .readOk, .readExn, .connectFail,
          .connectOk]).destutter' (· ≠ ·) false).tail = [true, false, true] := by
  have h := c4_connectivity_signaling false false
    [.connectOk, .readOk, .readExn, .connectFail, .connectOk]
    [.pingDown, .pingUpReconnectOk, .pingDown, .pingErr, .discoveryConnectOk]
    (by decide)
  refine ⟨⟨?_, ?_⟩, by decide⟩
  · rw [h.1]
    decide
  · rw [h.2]
    decide

end Gps

namespace Rfid

/-- One converted tag dict of a tag report as read by `tag_seen_callback`
(`src/utils/rfid.py` lines 103-132): the fields the callback forwards. -/
structure TagDict where
  epc96 : List Nat
  antennaID : Nat
  peakRSSI : Int
  lastSeenTimestampUTC : Int
  deriving Repr, DecidableEq

/-- What the GPS accessor yields inside `tag_seen_callback` (lines 109-116):
`gps_instance = self.gps_getter() if self.gps_getter else self.gps` may be
absent, present but not running, running but raising during
`get_data()`/`get_sdata()`, or running and readable.  In a `reading`, `lat`
and `lon` are the decimal degrees already produced by `extract_from_gps` and
`speed`/`bearing` the pair from `get_sdata()`. -/
inductive GpsAccess where
  | noInstance : GpsAccess
  | notRunning : GpsAccess
  | readError : GpsAccess
  | reading (lat lon speed bearing : Rat) : GpsAccess
  deriving Repr, DecidableEq

/-- Python's `round` at banker's (half-to-even) rounding, on exact
rationals. -/
def roundHalfEven (x : Rat) : Int :=
  let f := ⌊x⌋
  if x - f < 1 / 2 then f
  else if 1 / 2 < x - f then f + 1
  else if f % 2 = 0 then f else f + 1

/-- `round(x, 7)` as used on the latitude/longitude (lines 118-119). -/
def pyRound7 (q : Rat) : Rat := (roundHalfEven (q * 10000000) : Rat) / 10000000

/-- Embeds `tag_seen_callback` (`src/utils/rfid.py` lines 103-132): on an
empty report the callback only logs (`none` = no stored event, no emission);
otherwise `lat, lon, speed, bearing` start at zero, are overwritten only when
a running GPS instance is readable (any exception from the read is caught and
resets them to zero), latitude/longitude are rounded to 7 decimals, the first
tag of the report is kept, and the result is stored as `self.tag_data` with
`sig_msg.emit(3)` fired (`some` = stored event + emission). -/
def tag_seen_callback (tags : List TagDict) (g : GpsAccess) :
    Option (TagDict × Rat × Rat × Rat × Rat) :=
  match tags with
  | [] => none
  | t :: _ =>
    let p : Rat × Rat × Rat × Rat :=
      match g with
      | .reading lat lon speed bearing => (lat, lon, speed, bearing)
      | _ => (0, 0, 0, 0)
    some (t, pyRound7 p.1, pyRound7 p.2.1, p.2.2.1, p.2.2.2)

theorem pyRound7_zero : pyRound7 0 = 0 := by
  unfold pyRound7 roundHalfEven
  norm_num

/-- C10: for every non-empty tag report, if the GPS accessor yields no
running instance or reading the GPS data raises, the stored tag event still
records the first tag of the report with latitude, longitude, speed and
bearing all zero, and the tag-seen signal is still emitted (the exception
from the GPS read is caught inside the callback, which stays total). -/
theorem c10_tag_callback_gps_failure (tags : List TagDict) (t : TagDict)
    (rest : List TagDict) (g : GpsAccess) (htags : tags = t :: rest)
    (hg : g = .noInstance ∨ g = .notRunning ∨ g = .readError) :
    tag_seen_callback tags g = some (t, 0, 0, 0, 0) := by
  subst htags
  rcases hg with h | h | h <;> subst h <;>
    · show some (t, pyRound7 0, pyRound7 0, (0 : Rat), (0 : Rat))
        = some (t, 0, 0, 0, 0)
      rw [pyRound7_zero]

/-- Witness for C10: a concrete one-tag report with the GPS read raising. -/
theorem c10_tag_callback_gps_failure_witness :
    tag_seen_callback [⟨[69, 50, 48, 48], 1, -40, 1700000000000000⟩]
        .readError
      = some (⟨[69, 50, 48, 48], 1, -40, 1700000000000000⟩, 0, 0, 0, 0) := by
  exact c10_tag_callback_gps_failure
    [⟨[69, 50, 48, 48], 1, -40, 1700000000000000⟩]
    ⟨[69, 50, 48, 48], 1, -40, 1700000000000000⟩ [] .readError rfl
    (Or.inr (Or.inr rfl))

end Rfid

namespace Overview

/-- A row of the `records` table as probed by the duplicate-window query in
`_on_rfid_status` (`src/screens/overview.py` lines 398-460): only the
`rfidTag`, `timestamp`, `latitude` and `longitude` columns take part in the
de-duplication decision. -/
structure Row where
  rfidTag : List Nat
  timestamp : Int
  latitude : Rat
  longitude : Rat
  deriving Repr, DecidableEq

/-- The duplicate-window SELECT (lines 426-433):
`WHERE rfidTag = ? AND (ABS(timestamp - ?) < ? OR (latitude = ? AND
longitude = ?))` — note that the position-match disjunct is *conjoined* with
the same-tag condition.  `W` is `duplicate_detection_seconds * 1_000_000`. -/
def duplicateQuery (rows : List Row) (epc : List Nat) (ts : Int)
    (lat lon : Rat) (W : Nat) : List Row :=
  rows.filter (fun r =>
    decide (r.rfidTag = epc) &&
      (decide ((r.timestamp - ts).natAbs < W) ||
        (decide (r.latitude = lat) && decide (r.longitude = lon))))

/-- The storage decision of `_on_rfid_status` in DB mode for a tag event
that passed the configured filters (lines 398-451): first the cheap
consecutive-duplicate check against the last *accepted* record's position
(line 406; `last_stored_*` start as `None` and are updated only on an actual
insert, lines 446-448), then the duplicate-window query; insertion happens
only when the query returns no rows.  Returns (the table after the event,
the new `(last_stored_lat, last_stored_lon)`). -/
def on_rfid_status_store (lastStored : Option (Rat × Rat)) (rows : List Row)
    (epc : List Nat) (ts : Int) (lat lon : Rat) (W : Nat) :
    List Row × Option (Rat × Rat) :=
  if lastStored = some (lat, lon) then (rows, lastStored)
  else if (duplicateQuery rows epc ts lat lon W).isEmpty then
    (rows ++ [⟨epc, ts, lat, lon⟩], some (lat, lon))
  else (rows, lastStored)

/-- C6 counterexample: an existing row (tag `B`) has exactly the event's
lat/lon `(1, 1)`, the previous accepted record was at `(2, 2)`, and the event
(tag `A`) is far outside every time window — the claim says insertion must be
skipped because the event's lat/lon exactly match an existing row, but the
code's query conjoins the position match with `rfidTag = ?`, finds no row for
tag `A`, and inserts. -/
theorem c6_counterexample :
    ((⟨[66], 0, 1, 1⟩ : Row) ∈ [(⟨[66], 0, 1, 1⟩ : Row)] ∧
      (⟨[66], 0, 1, 1⟩ : Row).latitude = 1 ∧
      (⟨[66], 0, 1, 1⟩ : Row).longitude = 1) ∧
      on_rfid_status_store (some (2, 2)) [⟨[66], 0, 1, 1⟩] [65]
          10000000000 1 1 3000000
        = ([⟨[66], 0, 1, 1⟩, ⟨[65], 10000000000, 1, 1⟩], some (1, 1)) := by
  refine ⟨⟨List.mem_singleton_self _, rfl, rfl⟩, by decide⟩

/-- C6 (amended): in DB mode, for every tag event that passes the configured
filters, insertion is skipped if the event's lat/lon are identical to the
immediately preceding accepted record, or if a record *with the same tag*
already exists whose timestamp is within the duplicate-detection window *or*
whose lat/lon exactly match the event's (the position-match disjunct also
requires the same tag — a row with a different tag at the same position does
not suppress insertion); otherwise exactly one record is inserted and the
last-accepted position is updated. -/
theorem c6_ingest_dedup (lastStored : Option (Rat × Rat)) (rows : List Row)
    (epc : List Nat) (ts : Int) (lat lon : Rat) (W : Nat) :
    ((lastStored = some (lat, lon) ∨
        ∃ r ∈ rows, r.rfidTag = epc ∧
          ((r.timestamp - ts).natAbs < W ∨
            (r.latitude = lat ∧ r.longitude = lon))) →
      on_rfid_status_store lastStored rows epc ts lat lon W
        = (rows, lastStored)) ∧
    (¬ (lastStored = some (lat, lon) ∨
        ∃ r ∈ rows, r.rfidTag = epc ∧
          ((r.timestamp - ts).natAbs < W ∨
            (r.latitude = lat ∧ r.longitude = lon))) →
      on_rfid_status_store lastStored rows epc ts lat lon W
        = (rows ++ [⟨epc, ts, lat, lon⟩], some (lat, lon))) := by
  have hquery : (duplicateQuery rows epc ts lat lon W).isEmpty = true ↔
      ¬ ∃ r ∈ rows, r.rfidTag = epc ∧
        ((r.timestamp - ts).natAbs < W ∨
          (r.latitude = lat ∧ r.longitude = lon)) := by
    rw [List.isEmpty_iff]
    unfold duplicateQuery
    rw [List.filter_eq_nil_iff]
    constructor
    · rintro h ⟨r, hr, h1, h2⟩
      refine h r hr ?_
      simp only [Bool.and_eq_true, Bool.or_eq_true, decide_eq_true_eq]
      exact ⟨h1, by tauto⟩
    · intro h r hr hpred
      simp only [Bool.and_eq_true, Bool.or_eq_true, decide_eq_true_eq] at hpred
      exact h ⟨r, hr, hpred.1, by tauto⟩
  constructor
  · intro h
    unfold on_rfid_status_store
    by_cases hlast : lastStored = some (lat, lon)
    · rw [if_pos hlast]
    · rw [if_neg hlast]
      have hex : ∃ r ∈ rows, r.rfidTag = epc ∧
          ((r.timestamp - ts).natAbs < W ∨
            (r.latitude = lat ∧ r.longitude = lon)) := by
        rcases h with h | h
        · exact absurd h hlast
        · exact h
      rw [if_neg (fun ht => (hquery.mp ht) hex)]
  · intro h
    push_neg at h
    unfold on_rfid_status_store
    rw [if_neg h.1]
    rw [if_pos (hquery.mpr (by
      rintro ⟨r, hr, h1, h2⟩
      rcases h2 with h2 | h2
      · exact absurd h2 (by simpa using (h.2 r hr h1).1)
      · exact absurd h2.2 ((h.2 r hr h1).2 h2.1)))]

/-- Witness for C6 (amended): a same-tag row inside the 3-second window
suppresses insertion; with no matching row and a different last position, one
record is inserted. -/
theorem c6_ingest_dedup_witness :
    on_rfid_status_store (some (2, 2)) [⟨[65], 0, 5, 5⟩] [65] 1000000 1 1
        3000000
      = ([⟨[65], 0, 5, 5⟩], some (2, 2)) ∧
      on_rfid_status_store none [] [65] 0 1 1 3000000
        = ([⟨[65], 0, 1, 1⟩], some (1, 1)) := by
  constructor
  · exact (c6_ingest_dedup (some (2, 2)) [⟨[65], 0, 5, 5⟩] [65] 1000000 1 1
      3000000).1 (Or.inr ⟨⟨[65], 0, 5, 5⟩, List.mem_singleton_self _, rfl,
        Or.inl (by decide)⟩)
  · exact (c6_ingest_dedup none [] [65] 0 1 1 3000000).2 (by
      rintro (h | ⟨r, hr, _⟩)
      · exact Option.noConfusion h
      · exact (List.not_mem_nil r) hr)

end Overview

namespace Common

/-- The two external geodesy callables used by `calculate_speed_bearing`
(`src/utils/common.py` lines 65-72): `geopy.distance.geodesic(p1, p2).meters`
and `geographiclib`'s `Geodesic.WGS84.Inverse(...)['azi1']`.  Both libraries
are collaborators outside this repository, so they are parameters of the
embedding. -/
structure GeoLib where
  distance_meters : Rat → Rat → Rat → Rat → Rat
  azi1 : Rat → Rat → Rat → Rat → Rat

/-- The documented contract of `geographiclib`'s forward azimuth `azi1`: it
is reported in degrees in the interval [-180, 180]. -/
def AziContract (g : GeoLib) : Prop :=
  ∀ lat1 lon1 lat2 lon2, -180 ≤ g.azi1 lat1 lon1 lat2 lon2 ∧
    g.azi1 lat1 lon1 lat2 lon2 ≤ 180

/-- Embeds `calculate_speed_bearing` (`src/utils/common.py` lines 65-72):
the elapsed time is `(time2 - time1) / 1_000_000` seconds, the speed in m/s
is distance over elapsed time when the latter is positive and `0` otherwise,
and the returned pair is `(speed * 2.23694, azi1)` with the float literal
`2.23694` taken exactly. -/
def calculate_speed_bearing (g : GeoLib) (lat1 lon1 : Rat) (time1 : Int)
    (lat2 lon2 : Rat) (time2 : Int) : Rat × Rat :=
  let distance := g.distance_meters lat1 lon1 lat2 lon2
  let time_diff : Rat := ((time2 - time1 : Int) : Rat) / 1000000
  let speed := if 0 < time_diff then distance / time_diff else 0
  (speed * (223694 / 100000), g.azi1 lat1 lon1 lat2 lon2)

/-- A geodesy instance consistent with the WGS84 contract on a due-west
equatorial pair: the geodesic from `(0, 10)` to `(0, 0)` runs along the
equator westwards, so its forward azimuth is exactly `-90` degrees. -/
def geoWest : GeoLib where
  distance_meters := fun _ _ _ _ => 1113194
  azi1 := fun _ _ _ _ => -90

/-- C7 counterexample: the bearing returned by `calculate_speed_bearing` is
the library's `azi1`, which lies in [-180, 180] and is *not* normalized into
[0, 360): for a due-west equatorial pair the returned bearing is `-90`,
outside [0, 360). -/
theorem c7_counterexample :
    AziContract geoWest ∧
      (calculate_speed_bearing geoWest 0 10 0 0 0 1000000).2 = -90 ∧
      ¬ (0 ≤ (calculate_speed_bearing geoWest 0 10 0 0 0 1000000).2) := by
  refine ⟨fun _ _ _ _ => ⟨by norm_num [geoWest], by norm_num [geoWest]⟩,
    rfl, by norm_num [calculate_speed_bearing, geoWest]⟩

/-- C7 (amended): for any geodesy library satisfying the documented azimuth
contract and any two points with `time2 > time1`, the speed is the geodesic
distance in meters divided by the elapsed seconds, times 2.23694 (and `0`
whenever the elapsed time is not positive), and the bearing is the forward
azimuth `azi1` in degrees in the interval [-180, 180] — not normalized to
[0, 360). -/
theorem c7_speed_bearing (g : GeoLib) (hazi : AziContract g)
    (lat1 lon1 lat2 lon2 : Rat) (time1 time2 : Int) (h : time1 < time2) :
    (calculate_speed_bearing g lat1 lon1 time1 lat2 lon2 time2).1
        = g.distance_meters lat1 lon1 lat2 lon2
          / (((time2 - time1 : Int) : Rat) / 1000000) * (223694 / 100000) ∧
      (calculate_speed_bearing g lat1 lon1 time1 lat2 lon2 time2).2
        = g.azi1 lat1 lon1 lat2 lon2 ∧
      -180 ≤ (calculate_speed_bearing g lat1 lon1 time1 lat2 lon2 time2).2 ∧
      (calculate_speed_bearing g lat1 lon1 time1 lat2 lon2 time2).2 ≤ 180 ∧
      (∀ time2', time2' ≤ time1 →
        (calculate_speed_bearing g lat1 lon1 time1 lat2 lon2 time2').1 = 0) := by
  have hpos : (0 : Rat) < ((time2 - time1 : Int) : Rat) / 1000000 := by
    apply div_pos
    · exact_mod_cast Int.sub_pos.mpr h
    · norm_num
  refine ⟨?_, rfl, (hazi lat1 lon1 lat2 lon2).1, (hazi lat1 lon1 lat2 lon2).2,
    ?_⟩
  · unfold calculate_speed_bearing
    simp only [if_pos hpos]
  · intro time2' h'
    have hnonpos : ¬ (0 : Rat) < ((time2' - time1 : Int) : Rat) / 1000000 := by
      intro hc
      have h1 : (0 : Rat) < ((time2' - time1 : Int) : Rat) := by
        by_contra hle
        push_neg at hle
        have : ((time2' - time1 : Int) : Rat) / 1000000 ≤ 0 :=
          div_nonpos_of_nonpos_of_nonneg hle (by norm_num)
        linarith
      have h2 : (0 : Int) < time2' - time1 := by exact_mod_cast h1
      omega
    unfold calculate_speed_bearing
    simp only [if_neg hnonpos, zero_mul]

/-- Witness for C7 (amended): for the equatorial pair one degree apart with
one second elapsed, the speed is `1113194 * 2.23694` mph-per-meter-per-second
and the bearing `-90`; with the timestamps swapped the speed is `0`. -/
theorem c7_speed_bearing_witness :
    (calculate_speed_bearing geoWest 0 10 0 0 0 1000000).1
        = 1113194 * (223694 / 100000) ∧
      (calculate_speed_bearing geoWest 0 10 0 0 0 1000000).2 = -90 ∧
      (calculate_speed_bearing geoWest 0 10 1000000 0 0 0).1 = 0 := by
  have h := c7_speed_bearing geoWest
    (fun _ _ _ _ => ⟨by norm_num [geoWest], by norm_num [geoWest]⟩)
    0 10 0 0 0 1000000 (by norm_num)
  have h2 := c7_speed_bearing geoWest
    (fun _ _ _ _ => ⟨by norm_num [geoWest], by norm_num [geoWest]⟩)
    0 10 0 0 1000000 2000000 (by norm_num)
  refine ⟨?_, h.2.1, h2.2.2.2.2 0 (by norm_num)⟩
  rw [h.1]
  show (1113194 : Rat) / (((1000000 : Int) : Rat) / 1000000) * (223694 / 100000)
    = 1113194 * (223694 / 100000)
  norm_num

end Common

namespace ApiClient

/-- The LCG state sequence shared by `_decrypt_config_value`
(`src/utils/api_client.py` lines 74-83) and `encrypt`
(`src/utils_Test/encryption.py` lines 23-31): `state₀ = 0xA3C59AC3`,
`stateₙ₊₁ = (1664525 * stateₙ + 1013904223) mod 2³²`. -/
def lcgState : Nat → Nat
  | 0 => 0xA3C59AC3
  | n + 1 => (1664525 * lcgState n + 1013904223) % 2 ^ 32

/-- `next_key_byte` at call index `i` (0-based): the state is advanced first,
then `(state >> 24) & 0xFF` is taken. -/
def next_key_byte (i : Nat) : Nat := lcgState (i + 1) >>> 24 &&& 0xFF

theorem next_key_byte_lt (i : Nat) : next_key_byte i < 256 :=
  Nat.lt_succ_of_le (Nat.and_le_right)

/-- The encryption byte loop of `encrypt` (`src/utils_Test/encryption.py`
lines 34-37): `out[i] = ((p[i] ^ k) + (i % 256)) & 0xFF`, with the keystream
drawn sequentially; `i` is the index of the first element of `l`. -/
def encTransformGo (i : Nat) : List Nat → List Nat
  | [] => []
  | b :: rest =>
    ((b ^^^ next_key_byte i) + i % 256) % 256 :: encTransformGo (i + 1) rest

/-- The decryption byte loop of `_decrypt_config_value`
(`src/utils/api_client.py` lines 85-88): `out[i] = ((b - (i % 256)) & 0xFF)
^ k`; Python's signed subtraction followed by `& 0xFF` is
`(b + 256 - i % 256) % 256` for byte-range inputs. -/
def decTransformGo (i : Nat) : List Nat → List Nat
  | [] => []
  | b :: rest =>
    ((b + 256 - i % 256) % 256 ^^^ next_key_byte i) :: decTransformGo (i + 1) rest

theorem dec_enc_byte (i b : Nat) (hb : b < 256) :
    (((b ^^^ next_key_byte i) + i % 256) % 256 + 256 - i % 256) % 256
      ^^^ next_key_byte i = b := by
  have hk : next_key_byte i < 256 := next_key_byte_lt i
  have hx : b ^^^ next_key_byte i < 256 := Nat.xor_lt_two_pow (n := 8) hb hk
  have hj : i % 256 < 256 := Nat.mod_lt i (by omega)
  have hstep : (((b ^^^ next_key_byte i) + i % 256) % 256 + 256 - i % 256) % 256
      = b ^^^ next_key_byte i := by omega
  rw [hstep]
  exact Nat.xor_cancel_right _ _

/-- Each output byte of the encryption loop is a byte. -/
theorem encTransformGo_lt (i : Nat) (l : List Nat) :
    ∀ b ∈ encTransformGo i l, b < 256 := by
  induction l generalizing i with
  | nil => intro b hb; simp [encTransformGo] at hb
  | cons x rest ih =>
    intro b hb
    rcases List.mem_cons.mp hb with h | h
    · subst h
      exact Nat.mod_lt _ (by omega)
    · exact ih (i + 1) b h

/-- The decryption loop inverts the encryption loop on byte sequences,
index-aligned. -/
theorem decTransformGo_encTransformGo (l : List Nat) :
    ∀ i, (∀ b ∈ l, b < 256) →
      decTransformGo i (encTransformGo i l) = l := by
  induction l with
  | nil => intro i _; rfl
  | cons x rest ih =>
    intro i hl
    have hx : x < 256 := hl x (List.mem_cons_self x rest)
    simp only [encTransformGo, decTransformGo]
    rw [dec_enc_byte i x hx, ih (i + 1) (fun b hb => hl b (List.mem_cons_of_mem x hb))]

/-- A Unicode scalar value — what the code points of a Python `str` range
over (Python strings exclude surrogate pairs at this level). -/
def ValidScalar (c : Nat) : Prop := c < 0x110000 ∧ ¬ (0xD800 ≤ c ∧ c < 0xE000)

instance (c : Nat) : Decidable (ValidScalar c) := by
  unfold ValidScalar
  infer_instance

/-- Standard UTF-8 encoding of one scalar, as performed by Python's
`plaintext.encode("utf-8")`. -/
def utf8EncodeChar (c : Nat) : List Nat :=
  if c < 0x80 then [c]
  else if c < 0x800 then [0xC0 + c / 64, 0x80 + c % 64]
  else if c < 0x10000 then
    [0xE0 + c / 4096, 0x80 + c / 64 % 64, 0x80 + c % 64]
  else
    [0xF0 + c / 262144, 0x80 + c / 4096 % 64, 0x80 + c / 64 % 64, 0x80 + c % 64]

/-- `s.encode("utf-8")` on a whole string. -/
def utf8Encode (s : List Nat) : List Nat := (s.map utf8EncodeChar).flatten

/-- One scalar's worth of strict UTF-8 decoding, as performed by Python's
`bytes.decode("utf-8")`: continuation bytes must lie in [0x80, 0xC0);
overlong encodings, surrogates and out-of-range scalars are rejected
(`none` models the raised `UnicodeDecodeError`).  Returns the scalar and the
remaining bytes. -/
def utf8DecodeOne : List Nat → Option (Nat × List Nat)
  | [] => none
  | b0 :: rest =>
    if b0 < 0x80 then some (b0, rest)
    else if b0 < 0xC2 then none
    else if b0 < 0xE0 then
      match rest with
      | b1 :: rest1 =>
        if 0x80 ≤ b1 ∧ b1 < 0xC0 then
          some ((b0 - 0xC0) * 64 + (b1 - 0x80), rest1)
        else none
      | [] => none
    else if b0 < 0xF0 then
      match rest with
      | b1 :: b2 :: rest2 =>
        if (0x80 ≤ b1 ∧ b1 < 0xC0) ∧ (0x80 ≤ b2 ∧ b2 < 0xC0) then
          let c := (b0 - 0xE0) * 4096 + (b1 - 0x80) * 64 + (b2 - 0x80)
          if 0x800 ≤ c ∧ ¬ (0xD800 ≤ c ∧ c < 0xE000) then some (c, rest2)
          else none
        else none
      | _ => none
    else if b0 < 0xF5 then
      match rest with
      | b1 :: b2 :: b3 :: rest3 =>
        if (0x80 ≤ b1 ∧ b1 < 0xC0) ∧ (0x80 ≤ b2 ∧ b2 < 0xC0) ∧
            (0x80 ≤ b3 ∧ b3 < 0xC0) then
          let c := (b0 - 0xF0) * 262144 + (b1 - 0x80) * 4096
            + (b2 - 0x80) * 64 + (b3 - 0x80)
          if 0x10000 ≤ c ∧ c < 0x110000 then some (c, rest3)
          else none
        else none
      | _ => none
    else none

/-- The decoding loop, structurally recursive on a fuel that bounds the
number of scalars; `utf8Decode` passes the byte count, which suffices since
every scalar consumes at least one byte. -/
def utf8DecodeGo : Nat → List Nat → Option (List Nat)
  | _, [] => some []
  | 0, _ :: _ => none
  | fuel + 1, b0 :: rest =>
    match utf8DecodeOne (b0 :: rest) with
    | none => none
    | some (c, more) => (utf8DecodeGo fuel more).map (c :: ·)

/-- Strict UTF-8 decoding of a byte sequence (`bytes.decode("utf-8")`). -/
def utf8Decode (l : List Nat) : Option (List Nat) := utf8DecodeGo l.length l

/-- Every byte emitted by the UTF-8 encoder is a byte. -/
theorem utf8EncodeChar_lt (c : Nat) (h : ValidScalar c) :
    ∀ b ∈ utf8EncodeChar c, b < 256 := by
  rcases h with ⟨hmax, _⟩
  intro b hb
  unfold utf8EncodeChar at hb
  by_cases h1 : c < 0x80
  · simp only [if_pos h1] at hb
    rcases List.mem_singleton.mp hb with rfl
    omega
  · simp only [if_neg h1] at hb
    by_cases h2 : c < 0x800
    · simp only [if_pos h2] at hb
      rcases List.mem_cons.mp hb with rfl | hb
      · omega
      · rcases List.mem_singleton.mp hb with rfl
        omega
    · simp only [if_neg h2] at hb
      by_cases h3 : c < 0x10000
      · simp only [if_pos h3] at hb
        rcases List.mem_cons.mp hb with rfl | hb
        · omega
        · rcases List.mem_cons.mp hb with rfl | hb
          · omega
          · rcases List.mem_singleton.mp hb with rfl
            omega
      · simp only [if_neg h3] at hb
        rcases List.mem_cons.mp hb with rfl | hb
        · omega
        · rcases List.mem_cons.mp hb with rfl | hb
          · omega
          · rcases List.mem_cons.mp hb with rfl | hb
            · omega
            · rcases List.mem_singleton.mp hb with rfl
              omega

theorem utf8Encode_lt (s : List Nat) (h : ∀ c ∈ s, ValidScalar c) :
    ∀ b ∈ utf8Encode s, b < 256 := by
  intro b hb
  unfold utf8Encode at hb
  rcases List.mem_flatten.mp hb with ⟨l, hl, hbl⟩
  rcases List.mem_map.mp hl with ⟨c, hc, rfl⟩
  exact utf8EncodeChar_lt c (h c hc) b hbl

/-- The UTF-8 encoding of a scalar is never empty. -/
theorem utf8EncodeChar_ne_nil (c : Nat) : utf8EncodeChar c ≠ [] := by
  unfold utf8EncodeChar
  split_ifs <;> simp

/-- Decoding after encoding one scalar peels off exactly that scalar. -/
theorem utf8DecodeOne_encodeChar (c : Nat) (h : ValidScalar c)
    (rest : List Nat) :
    utf8DecodeOne (utf8EncodeChar c ++ rest) = some (c, rest) := by
  rcases h with ⟨hmax, hsurr⟩
  by_cases h1 : c < 0x80
  · rw [utf8EncodeChar, if_pos h1]
    show utf8DecodeOne (c :: rest) = some (c, rest)
    simp only [utf8DecodeOne]
    rw [if_pos h1]
  · by_cases h2 : c < 0x800
    · rw [utf8EncodeChar, if_neg h1, if_pos h2]
      show utf8DecodeOne ((0xC0 + c / 64) :: (0x80 + c % 64) :: rest)
        = some (c, rest)
      simp only [utf8DecodeOne]
      have hb1 : ¬ (0xC0 + c / 64 < 0x80) := by omega
      have hb2 : ¬ (0xC0 + c / 64 < 0xC2) := by omega
      have hb3 : 0xC0 + c / 64 < 0xE0 := by omega
      have hb4 : 0x80 ≤ 0x80 + c % 64 ∧ 0x80 + c % 64 < 0xC0 := by omega
      simp only [if_neg hb1, if_neg hb2, if_pos hb3, if_pos hb4]
      have harith : (0xC0 + c / 64 - 0xC0) * 64 + (0x80 + c % 64 - 0x80) = c := by
        omega
      rw [harith]
    · by_cases h3 : c < 0x10000
      · rw [utf8EncodeChar, if_neg h1, if_neg h2, if_pos h3]
        show utf8DecodeOne ((0xE0 + c / 4096) :: (0x80 + c / 64 % 64)
            :: (0x80 + c % 64) :: rest) = some (c, rest)
        simp only [utf8DecodeOne]
        have hb1 : ¬ (0xE0 + c / 4096 < 0x80) := by omega
        have hb2 : ¬ (0xE0 + c / 4096 < 0xC2) := by omega
        have hb3 : ¬ (0xE0 + c / 4096 < 0xE0) := by omega
        have hb4 : 0xE0 + c / 4096 < 0xF0 := by omega
        have hb5 : (0x80 ≤ 0x80 + c / 64 % 64 ∧ 0x80 + c / 64 % 64 < 0xC0) ∧
            (0x80 ≤ 0x80 + c % 64 ∧ 0x80 + c % 64 < 0xC0) := by omega
        simp only [if_neg hb1, if_neg hb2, if_neg hb3, if_pos hb4, if_pos hb5]
        have harith : (0xE0 + c / 4096 - 0xE0) * 4096
            + (0x80 + c / 64 % 64 - 0x80) * 64 + (0x80 + c % 64 - 0x80) = c := by
          omega
        rw [harith]
        have hok : 0x800 ≤ c ∧ ¬ (0xD800 ≤ c ∧ c < 0xE000) := ⟨by omega, hsurr⟩
        rw [if_pos hok]
      · rw [utf8EncodeChar, if_neg h1, if_neg h2, if_neg h3]
        show utf8DecodeOne ((0xF0 + c / 262144) :: (0x80 + c / 4096 % 64)
            :: (0x80 + c / 64 % 64) :: (0x80 + c % 64) :: rest)
          = some (c, rest)
        simp only [utf8DecodeOne]
        have hb1 : ¬ (0xF0 + c / 262144 < 0x80) := by omega
        have hb2 : ¬ (0xF0 + c / 262144 < 0xC2) := by omega
        have hb3 : ¬ (0xF0 + c / 262144 < 0xE0) := by omega
        have hb4 : ¬ (0xF0 + c / 262144 < 0xF0) := by omega
        have hb5 : 0xF0 + c / 262144 < 0xF5 := by omega
        have hb6 : (0x80 ≤ 0x80 + c / 4096 % 64 ∧ 0x80 + c / 4096 % 64 < 0xC0) ∧
            (0x80 ≤ 0x80 + c / 64 % 64 ∧ 0x80 + c / 64 % 64 < 0xC0) ∧
            (0x80 ≤ 0x80 + c % 64 ∧ 0x80 + c % 64 < 0xC0) := by omega
        simp only [if_neg hb1, if_neg hb2, if_neg hb3, if_neg hb4, if_pos hb5,
          if_pos hb6]
        have harith : (0xF0 + c / 262144 - 0xF0) * 262144
            + (0x80 + c / 4096 % 64 - 0x80) * 4096
            + (0x80 + c / 64 % 64 - 0x80) * 64 + (0x80 + c % 64 - 0x80) = c := by
          omega
        rw [harith]
        have hok : 0x10000 ≤ c ∧ c < 0x110000 := ⟨by omega, hmax⟩
        rw [if_pos hok]

/-- A string never encodes to fewer bytes than it has scalars. -/
theorem length_le_utf8Encode_length (s : List Nat) :
    s.length ≤ (utf8Encode s).length := by
  induction s with
  | nil => simp [utf8Encode]
  | cons c s ih =>
    have hne := utf8EncodeChar_ne_nil c
    have hpos : 1 ≤ (utf8EncodeChar c).length := by
      rcases List.exists_cons_of_ne_nil hne with ⟨a, t, he⟩
      rw [he]
      simp
    unfold utf8Encode at ih ⊢
    simp only [List.map_cons, List.flatten_cons, List.length_append,
      List.length_cons]
    omega

/-- With enough fuel (one unit per scalar), decoding inverts encoding. -/
theorem utf8DecodeGo_encode : ∀ (fuel : Nat) (s : List Nat),
    (∀ c ∈ s, ValidScalar c) → s.length ≤ fuel →
    utf8DecodeGo fuel (utf8Encode s) = some s := by
  intro fuel
  induction fuel with
  | zero =>
    intro s _ hlen
    have : s = [] := List.length_eq_zero.mp (Nat.le_zero.mp hlen)
    subst this
    rfl
  | succ fuel ih =>
    intro s hval hlen
    match s with
    | [] => rfl
    | c :: s1 =>
      have hflat : utf8Encode (c :: s1) = utf8EncodeChar c ++ utf8Encode s1 := by
        unfold utf8Encode
        simp
      rcases List.exists_cons_of_ne_nil (utf8EncodeChar_ne_nil c) with ⟨b0, bs, hcons⟩
      have hdec := utf8DecodeOne_encodeChar c (hval c (List.mem_cons_self c s1))
        (utf8Encode s1)
      rw [hflat, hcons, List.cons_append]
      rw [hcons, List.cons_append] at hdec
      show (match utf8DecodeOne (b0 :: (bs ++ utf8Encode s1)) with
        | none => none
        | some (c, more) => (utf8DecodeGo fuel more).map (c :: ·)) = some (c :: s1)
      rw [hdec]
      have ihs := ih s1 (fun d hd => hval d (List.mem_cons_of_mem c hd))
        (by simpa using Nat.le_of_succ_le_succ hlen)
      show (utf8DecodeGo fuel (utf8Encode s1)).map (c :: ·) = some (c :: s1)
      rw [ihs]
      rfl

/-- UTF-8 round trip on whole strings of valid scalars. -/
theorem utf8Decode_utf8Encode (s : List Nat) (h : ∀ c ∈ s, ValidScalar c) :
    utf8Decode (utf8Encode s) = some s := by
  unfold utf8Decode
  exact utf8DecodeGo_encode (utf8Encode s).length s h
    (Nat.le_trans (length_le_utf8Encode_length s) (Nat.le_refl _))

/-- The base64url alphabet (`base64.urlsafe_b64encode`): `A-Z a-z 0-9 - _`,
as code points. -/
def b64Char (n : Nat) : Nat :=
  if n < 26 then 65 + n
  else if n < 52 then 97 + (n - 26)
  else if n < 62 then 48 + (n - 52)
  else if n = 62 then 45
  else 95

/-- Inverse lookup in the decoding alphabet; `none` on a character outside
it (including the padding `=`).  `urlsafe_b64decode` translates `-` to `+`
and `_` to `/` and then uses the standard table, so both the urlsafe and the
standard characters for values 62 and 63 are accepted. -/
def b64CharDec (c : Nat) : Option Nat :=
  if 65 ≤ c ∧ c ≤ 90 then some (c - 65)
  else if 97 ≤ c ∧ c ≤ 122 then some (26 + (c - 97))
  else if 48 ≤ c ∧ c ≤ 57 then some (52 + (c - 48))
  else if c = 45 ∨ c = 43 then some 62
  else if c = 95 ∨ c = 47 then some 63
  else none

theorem b64CharDec_b64Char : ∀ n, n < 64 → b64CharDec (b64Char n) = some n := by
  decide

theorem b64Char_ne_61 (n : Nat) : b64Char n ≠ 61 := by
  unfold b64Char
  split_ifs <;> omega

/-- `base64.urlsafe_b64encode`: 3 input bytes become 4 alphabet characters;
a final group of 1 or 2 bytes is padded with `=` (code point 61). -/
def b64Encode : List Nat → List Nat
  | [] => []
  | [b0] => [b64Char (b0 / 4), b64Char (b0 % 4 * 16), 61, 61]
  | [b0, b1] =>
    [b64Char (b0 / 4), b64Char (b0 % 4 * 16 + b1 / 16), b64Char (b1 % 16 * 4),
      61]
  | b0 :: b1 :: b2 :: rest =>
    b64Char (b0 / 4) :: b64Char (b0 % 4 * 16 + b1 / 16)
      :: b64Char (b1 % 16 * 4 + b2 / 64) :: b64Char (b2 % 64)
      :: b64Encode rest

/-- `base64.urlsafe_b64decode`, i.e. `binascii.a2b_base64` in its default
non-strict mode after the urlsafe translation: characters outside the
alphabet are *discarded* (not an error); a padding `=` is ignored while the
current group has fewer than two data characters, and completes the decode
(the remaining input is ignored) once the group has at least two data
characters and enough pads; leftover data characters at the end of the
input (an unterminated group) raise `binascii.Error`, modelled as `none`.
State: `quad_pos` is the position within the current 4-character group,
`leftchar` the pending bits, `pads` the pads seen in the current group.
The recursion is structural on a fuel of one unit per character;
`b64Decode` passes the character count. -/
def a2b_base64 : Nat → Nat → Nat → Nat → List Nat → Option (List Nat)
  | _, quad_pos, _, _, [] => if quad_pos = 0 then some [] else none
  | 0, _, _, _, _ :: _ => none
  | fuel + 1, quad_pos, leftchar, pads, c :: rest =>
    if c = 61 then
      if 2 ≤ quad_pos ∧ 4 ≤ quad_pos + (pads + 1) then some []
      else if 2 ≤ quad_pos then
        a2b_base64 fuel quad_pos leftchar (pads + 1) rest
      else a2b_base64 fuel quad_pos leftchar pads rest
    else
      match b64CharDec c with
      | none => a2b_base64 fuel quad_pos leftchar pads rest
      | some v =>
        match quad_pos with
        | 0 => a2b_base64 fuel 1 v 0 rest
        | 1 => (a2b_base64 fuel 2 (v % 16) 0 rest).map
            ((leftchar * 4 + v / 16) :: ·)
        | 2 => (a2b_base64 fuel 3 (v % 4) 0 rest).map
            ((leftchar * 16 + v / 4) :: ·)
        | _ => (a2b_base64 fuel 0 0 0 rest).map ((leftchar * 64 + v) :: ·)

/-- `base64.urlsafe_b64decode` of a character sequence. -/
def b64Decode (l : List Nat) : Option (List Nat) :=
  a2b_base64 l.length 0 0 0 l

theorem a2b_cons (fuel quad_pos leftchar pads c : Nat) (rest : List Nat) :
    a2b_base64 (fuel + 1) quad_pos leftchar pads (c :: rest) =
      if c = 61 then
        if 2 ≤ quad_pos ∧ 4 ≤ quad_pos + (pads + 1) then some []
        else if 2 ≤ quad_pos then
          a2b_base64 fuel quad_pos leftchar (pads + 1) rest
        else a2b_base64 fuel quad_pos leftchar pads rest
      else
        match b64CharDec c with
        | none => a2b_base64 fuel quad_pos leftchar pads rest
        | some v =>
          match quad_pos with
          | 0 => a2b_base64 fuel 1 v 0 rest
          | 1 => (a2b_base64 fuel 2 (v % 16) 0 rest).map
              ((leftchar * 4 + v / 16) :: ·)
          | 2 => (a2b_base64 fuel 3 (v % 4) 0 rest).map
              ((leftchar * 16 + v / 4) :: ·)
          | _ => (a2b_base64 fuel 0 0 0 rest).map ((leftchar * 64 + v) :: ·) := rfl

/-- One data character steps the group machine by its quad position. -/
theorem a2b_data_step (fuel quad_pos leftchar pads v : Nat) (hv : v < 64)
    (rest : List Nat) :
    a2b_base64 (fuel + 1) quad_pos leftchar pads (b64Char v :: rest)
      = match quad_pos with
        | 0 => a2b_base64 fuel 1 v 0 rest
        | 1 => (a2b_base64 fuel 2 (v % 16) 0 rest).map
            ((leftchar * 4 + v / 16) :: ·)
        | 2 => (a2b_base64 fuel 3 (v % 4) 0 rest).map
            ((leftchar * 16 + v / 4) :: ·)
        | _ => (a2b_base64 fuel 0 0 0 rest).map ((leftchar * 64 + v) :: ·) := by
  rw [a2b_cons, if_neg (b64Char_ne_61 v), b64CharDec_b64Char v hv]

theorem a2b_step0 (fuel leftchar pads v : Nat) (hv : v < 64)
    (rest : List Nat) :
    a2b_base64 (fuel + 1) 0 leftchar pads (b64Char v :: rest)
      = a2b_base64 fuel 1 v 0 rest := by
  rw [a2b_data_step fuel 0 leftchar pads v hv rest]

theorem a2b_step1 (fuel leftchar pads v : Nat) (hv : v < 64)
    (rest : List Nat) :
    a2b_base64 (fuel + 1) 1 leftchar pads (b64Char v :: rest)
      = (a2b_base64 fuel 2 (v % 16) 0 rest).map
          ((leftchar * 4 + v / 16) :: ·) := by
  rw [a2b_data_step fuel 1 leftchar pads v hv rest]

theorem a2b_step2 (fuel leftchar pads v : Nat) (hv : v < 64)
    (rest : List Nat) :
    a2b_base64 (fuel + 1) 2 leftchar pads (b64Char v :: rest)
      = (a2b_base64 fuel 3 (v % 4) 0 rest).map
          ((leftchar * 16 + v / 4) :: ·) := by
  rw [a2b_data_step fuel 2 leftchar pads v hv rest]

theorem a2b_step3 (fuel leftchar pads v : Nat) (hv : v < 64)
    (rest : List Nat) :
    a2b_base64 (fuel + 1) 3 leftchar pads (b64Char v :: rest)
      = (a2b_base64 fuel 0 0 0 rest).map ((leftchar * 64 + v) :: ·) := by
  rw [a2b_data_step fuel 3 leftchar pads v hv rest]

theorem a2b_pad_step (fuel quad_pos leftchar pads : Nat) (rest : List Nat) :
    a2b_base64 (fuel + 1) quad_pos leftchar pads (61 :: rest)
      = if 2 ≤ quad_pos ∧ 4 ≤ quad_pos + (pads + 1) then some []
        else if 2 ≤ quad_pos then
          a2b_base64 fuel quad_pos leftchar (pads + 1) rest
        else a2b_base64 fuel quad_pos leftchar pads rest := by
  rw [a2b_cons, if_pos rfl]

/-- Decoding the encoder's output with fuel equal to its character count
recovers the bytes: full groups step through quad positions 0-3, and the
final padded group is completed by its `=` characters. -/
theorem a2b_b64Encode : ∀ (n : Nat) (bs : List Nat), bs.length ≤ n →
    (∀ b ∈ bs, b < 256) →
    a2b_base64 (b64Encode bs).length 0 0 0 (b64Encode bs) = some bs := by
  intro n
  induction n with
  | zero =>
    intro bs hlen _
    have : bs = [] := List.length_eq_zero.mp (Nat.le_zero.mp hlen)
    subst this
    rfl
  | succ n ih =>
    intro bs hlen hb
    match bs with
    | [] => rfl
    | [b0] =>
      have h0 : b0 < 256 := hb b0 (by simp)
      show a2b_base64 (3 + 1) 0 0 0
        (b64Char (b0 / 4) :: b64Char (b0 % 4 * 16) :: 61 :: 61 :: [])
        = some [b0]
      rw [a2b_step0 3 0 0 (b0 / 4) (by omega)]
      show a2b_base64 (2 + 1) 1 (b0 / 4) 0
        (b64Char (b0 % 4 * 16) :: 61 :: 61 :: []) = some [b0]
      rw [a2b_step1 2 (b0 / 4) 0 (b0 % 4 * 16) (by omega)]
      show (a2b_base64 (1 + 1) 2 (b0 % 4 * 16 % 16) 0 (61 :: 61 :: [])).map
        ((b0 / 4 * 4 + b0 % 4 * 16 / 16) :: ·) = some [b0]
      rw [a2b_pad_step 1 2 (b0 % 4 * 16 % 16) 0, if_neg (by omega),
        if_pos (by omega)]
      show (a2b_base64 (0 + 1) 2 (b0 % 4 * 16 % 16) (0 + 1) (61 :: [])).map
        ((b0 / 4 * 4 + b0 % 4 * 16 / 16) :: ·) = some [b0]
      rw [a2b_pad_step 0 2 (b0 % 4 * 16 % 16) (0 + 1), if_pos (by omega)]
      show some [b0 / 4 * 4 + b0 % 4 * 16 / 16] = some [b0]
      have e1 : b0 / 4 * 4 + b0 % 4 * 16 / 16 = b0 := by omega
      rw [e1]
    | [b0, b1] =>
      have h0 : b0 < 256 := hb b0 (by simp)
      have h1 : b1 < 256 := hb b1 (by simp)
      show a2b_base64 (3 + 1) 0 0 0 (b64Char (b0 / 4)
          :: b64Char (b0 % 4 * 16 + b1 / 16) :: b64Char (b1 % 16 * 4)
          :: 61 :: []) = some [b0, b1]
      rw [a2b_step0 3 0 0 (b0 / 4) (by omega)]
      show a2b_base64 (2 + 1) 1 (b0 / 4) 0
        (b64Char (b0 % 4 * 16 + b1 / 16) :: b64Char (b1 % 16 * 4) :: 61 :: [])
        = some [b0, b1]
      rw [a2b_step1 2 (b0 / 4) 0 (b0 % 4 * 16 + b1 / 16) (by omega)]
      show (a2b_base64 (1 + 1) 2 ((b0 % 4 * 16 + b1 / 16) % 16) 0
          (b64Char (b1 % 16 * 4) :: 61 :: [])).map
        ((b0 / 4 * 4 + (b0 % 4 * 16 + b1 / 16) / 16) :: ·) = some [b0, b1]
      rw [a2b_step2 1 ((b0 % 4 * 16 + b1 / 16) % 16) 0 (b1 % 16 * 4)
        (by omega)]
      show ((a2b_base64 (0 + 1) 3 (b1 % 16 * 4 % 4) 0 (61 :: [])).map
          (((b0 % 4 * 16 + b1 / 16) % 16 * 16 + b1 % 16 * 4 / 4) :: ·)).map
        ((b0 / 4 * 4 + (b0 % 4 * 16 + b1 / 16) / 16) :: ·) = some [b0, b1]
      rw [a2b_pad_step 0 3 (b1 % 16 * 4 % 4) 0, if_pos (by omega)]
      show some [b0 / 4 * 4 + (b0 % 4 * 16 + b1 / 16) / 16,
        (b0 % 4 * 16 + b1 / 16) % 16 * 16 + b1 % 16 * 4 / 4] = some [b0, b1]
      have e1 : b0 / 4 * 4 + (b0 % 4 * 16 + b1 / 16) / 16 = b0 := by omega
      have e2 : (b0 % 4 * 16 + b1 / 16) % 16 * 16 + b1 % 16 * 4 / 4 = b1 := by
        omega
      rw [e1, e2]
    | b0 :: b1 :: b2 :: rest =>
      have h0 : b0 < 256 := hb b0 (by simp)
      have h1 : b1 < 256 := hb b1 (by simp)
      have h2 : b2 < 256 := hb b2 (by simp)
      have hrest : ∀ b ∈ rest, b < 256 := fun b hbm =>
        hb b (by simp [hbm])
      have hlen' : rest.length ≤ n := by
        simp only [List.length_cons] at hlen
        omega
      have hih := ih rest hlen' hrest
      show a2b_base64 ((b64Encode rest).length + 1 + 1 + 1 + 1) 0 0 0
          (b64Char (b0 / 4) :: b64Char (b0 % 4 * 16 + b1 / 16)
            :: b64Char (b1 % 16 * 4 + b2 / 64) :: b64Char (b2 % 64)
            :: b64Encode rest)
        = some (b0 :: b1 :: b2 :: rest)
      rw [a2b_step0 ((b64Encode rest).length + 1 + 1 + 1) 0 0 (b0 / 4)
        (by omega)]
      rw [a2b_step1 ((b64Encode rest).length + 1 + 1) (b0 / 4) 0
        (b0 % 4 * 16 + b1 / 16) (by omega)]
      rw [a2b_step2 ((b64Encode rest).length + 1) ((b0 % 4 * 16 + b1 / 16) % 16)
        0 (b1 % 16 * 4 + b2 / 64) (by omega)]
      rw [a2b_step3 ((b64Encode rest).length) ((b1 % 16 * 4 + b2 / 64) % 4)
        0 (b2 % 64) (by omega)]
      rw [hih]
      show some ((b0 / 4 * 4 + (b0 % 4 * 16 + b1 / 16) / 16)
          :: ((b0 % 4 * 16 + b1 / 16) % 16 * 16 + (b1 % 16 * 4 + b2 / 64) / 4)
          :: ((b1 % 16 * 4 + b2 / 64) % 4 * 64 + b2 % 64) :: rest)
        = some (b0 :: b1 :: b2 :: rest)
      have e1 : b0 / 4 * 4 + (b0 % 4 * 16 + b1 / 16) / 16 = b0 := by omega
      have e2 : (b0 % 4 * 16 + b1 / 16) % 16 * 16 + (b1 % 16 * 4 + b2 / 64) / 4
          = b1 := by omega
      have e3 : (b1 % 16 * 4 + b2 / 64) % 4 * 64 + b2 % 64 = b2 := by omega
      rw [e1, e2, e3]

/-- Base64url round trip on byte sequences. -/
theorem b64Decode_b64Encode (bs : List Nat) (hb : ∀ b ∈ bs, b < 256) :
    b64Decode (b64Encode bs) = some bs := by
  unfold b64Decode
  exact a2b_b64Encode bs.length bs (Nat.le_refl _) hb

/-- The code points of the `"enc:"` marker prefix. -/
def encPrefix : List Nat := [101, 110, 99, 58]

/-- Embeds `encrypt` from `src/utils_Test/encryption.py` (lines 18-38):
UTF-8 encode the plaintext, apply the LCG-keystream XOR-with-positional-
offset transform, base64url-encode, and prepend `"enc:"`. -/
def encrypt (plaintext : List Nat) : List Nat :=
  encPrefix ++ b64Encode (encTransformGo 0 (utf8Encode plaintext))

/-- Embeds `_decrypt_config_value` from `src/utils/api_client.py` (lines
50-92): `None`/empty values and values without the `"enc:"` prefix pass
through unchanged; otherwise the payload after the prefix is base64url-
decoded, byte-transformed back, and UTF-8 decoded — any failure in that
pipeline (the `except` clause) returns the original value unchanged. -/
def decrypt_config_value (value : List Nat) : List Nat :=
  if value = [] then value
  else if ¬ encPrefix.isPrefixOf value then value
  else
    match b64Decode (value.drop 4) with
    | none => value
    | some data =>
      match utf8Decode (decTransformGo 0 data) with
      | none => value
      | some out => out

/-- C5 counterexample: the corrupt `"enc:"`-prefixed value `"enc:!"` is
*not* returned unchanged — `urlsafe_b64decode` discards the non-alphabet
`!`, decodes the remaining empty payload to the empty byte string, the byte
transform is a
no-op, and the empty byte string UTF-8-decodes to `""`, which
`_decrypt_config_value` returns: the result is the empty string, not the
input. -/
theorem c5_counterexample :
    decrypt_config_value [101, 110, 99, 58, 33] = [] ∧
      [101, 110, 99, 58, 33] ≠ ([] : List Nat) ∧
      encPrefix.isPrefixOf [101, 110, 99, 58, 33] = true := by
  refine ⟨by decide, by decide, by decide⟩

/-- C5 (amended): decrypting the encrypted form of any unicode string
(scalars only, including the empty string) yields the string back; a value
without the `"enc:"` prefix passes through unchanged; and an
`"enc:"`-prefixed value is returned unchanged exactly when the decoding
pipeline raises (a base64 error from an unterminated group, or invalid
UTF-8 after the byte transform — the `except` clause).  Characters outside
the base64url alphabet are *discarded* by `urlsafe_b64decode` rather than
raising, so a corrupt value whose remaining characters decode cleanly
returns the decoded string instead of the input (e.g. `"enc:!"` yields
`""`); the embedding is a total function, so no exception escapes. -/
theorem c5_secret_round_trip :
    (∀ p, (∀ c ∈ p, ValidScalar c) →
      decrypt_config_value (encrypt p) = p) ∧
    (∀ v, ¬ encPrefix.isPrefixOf v → decrypt_config_value v = v) ∧
    (∀ v, (b64Decode (v.drop 4) = none ∨
        (∃ data, b64Decode (v.drop 4) = some data ∧
          utf8Decode (decTransformGo 0 data) = none)) →
      decrypt_config_value v = v) ∧
    (∀ v data out, encPrefix.isPrefixOf v →
      b64Decode (v.drop 4) = some data →
      utf8Decode (decTransformGo 0 data) = some out →
      decrypt_config_value v = out) := by
  refine ⟨?_, ?_, ?_, ?_⟩
  · intro p hval
    have hbytes : ∀ b ∈ utf8Encode p, b < 256 := utf8Encode_lt p hval
    have hct : ∀ b ∈ encTransformGo 0 (utf8Encode p), b < 256 :=
      encTransformGo_lt 0 (utf8Encode p)
    have hb64 : b64Decode (b64Encode (encTransformGo 0 (utf8Encode p)))
        = some (encTransformGo 0 (utf8Encode p)) :=
      b64Decode_b64Encode _ hct
    have hdecT : decTransformGo 0 (encTransformGo 0 (utf8Encode p))
        = utf8Encode p :=
      decTransformGo_encTransformGo (utf8Encode p) 0 hbytes
    have hutf8 : utf8Decode (utf8Encode p) = some p :=
      utf8Decode_utf8Encode p hval
    have hne : encrypt p ≠ [] := by
      unfold encrypt encPrefix
      simp
    have hpref : encPrefix.isPrefixOf (encrypt p) = true := by
      unfold encrypt
      rw [List.isPrefixOf_iff_prefix]
      exact List.prefix_append _ _
    have hdrop : (encrypt p).drop 4
        = b64Encode (encTransformGo 0 (utf8Encode p)) := by
      unfold encrypt
      rw [show (4 : Nat) = encPrefix.length from rfl, List.drop_left]
    unfold decrypt_config_value
    rw [if_neg hne, if_neg (fun h => h hpref)]
    simp only [hdrop, hb64, hdecT, hutf8]
  · intro v h
    unfold decrypt_config_value
    by_cases hv : v = []
    · rw [if_pos hv]
    · rw [if_neg hv, if_pos h]
  · intro v hfail
    unfold decrypt_config_value
    by_cases hv : v = []
    · rw [if_pos hv]
    · rw [if_neg hv]
      by_cases hp : encPrefix.isPrefixOf v
      · rw [if_neg (fun h => h hp)]
        rcases hfail with hnone | ⟨data, hsome, hutf8⟩
        · simp only [hnone]
        · simp only [hsome, hutf8]
      · rw [if_pos hp]
  · intro v data out hp hdata hout
    have hv : v ≠ [] := by
      intro he
      subst he
      exact absurd hp (by decide)
    unfold decrypt_config_value
    rw [if_neg hv, if_neg (fun h => h hp)]
    simp only [hdata, hout]

/-- Witness for C5 (amended): the round trip at `"abc"` and `""`,
passthrough of a value without the prefix, fail-closed behavior of
`"enc:A"` (a single data character leaves an unterminated group, a base64
error), and the discard behavior on `"enc:!"` decoding to the empty
string. -/
theorem c5_secret_round_trip_witness :
    decrypt_config_value (encrypt [97, 98, 99]) = [97, 98, 99] ∧
      decrypt_config_value (encrypt []) = [] ∧
      decrypt_config_value [120, 121] = [120, 121] ∧
      decrypt_config_value [101, 110, 99, 58, 65]
        = [101, 110, 99, 58, 65] ∧
      decrypt_config_value [101, 110, 99, 58, 33] = [] := by
  refine ⟨?_, ?_, ?_, ?_, ?_⟩
  · exact c5_secret_round_trip.1 [97, 98, 99] (by decide)
  · exact c5_secret_round_trip.1 [] (by decide)
  · exact c5_secret_round_trip.2.1 [120, 121] (by decide)
  · exact c5_secret_round_trip.2.2.1 [101, 110, 99, 58, 65]
      (Or.inl (by decide))
  · exact c5_secret_round_trip.2.2.2 [101, 110, 99, 58, 33] [] []
      (by decide) (by decide) (by decide)

end ApiClient
